import Mathlib

/-!
# Verification of the WSP Double Ratchet / relay / safety-number core

A shallow embedding of the Rust sources of the `whisper` repository:

* `src/crypto/ratchet.rs`  — the Double Ratchet session state machine,
* `src/crypto/safety_number.rs` — safety-number computation and rendering,
* `src/crypto/mod.rs`      — identity key exchange (the part the client uses),
* `src/relay/mod.rs`       — the relay's per-frame routing,
* `src/client/mod.rs`      — the client's inbound `KeyExchange` handler,
* `src/protocol/mod.rs`    — the wire `Message` enum.

The external cryptographic crates (`hkdf`/`sha2` for the ratchet KDFs,
`blake3`, `x25519-dalek`, `chacha20poly1305`) are not part of this
repository; they are modelled symbolically in the standard Dolev-Yao style:
key material is a free term algebra (`KM`), so two derived keys are equal
exactly when they were derived by the same sequence of KDF applications
with the same labels, X25519 is modelled by an operation that is symmetric
in the two secrets exactly as `dh(a, pub b) = dh(b, pub a)`, and AEAD is
ideal: decryption succeeds exactly for the key/nonce pair the ciphertext
was produced with, and returns the original plaintext.  The safety number
uses a full executable SHA-256, because its claims are about the concrete
digest bytes.

Randomness (`OsRng` in the source) appears as explicit parameters: every
operation that draws a fresh ephemeral secret or nonce takes it as an
argument.  Fresh secrets drawn during a protocol run are modelled by a
counter, reflecting that independently drawn 32-byte secrets are distinct.

The Rust sources use `u32` counters; they are modelled as `Nat`.  The only
arithmetic the claims exercise keeps the counters far below `2^32`, and the
single subtraction in `skip_message_keys` is guarded by the same `<` test
as in the source, so truncated `Nat` subtraction agrees with `u32`
subtraction there.
-/

namespace Whisper

/-- Symbolic key material: the free algebra of the KDF applications that
appear in `ratchet.rs`.  `hkdfInit ss info` is
`Hkdf::<Sha256>::new(None, shared_secret).expand(info)`;
`hkdfKM k info` is the same with previously derived key material as IKM
(used for voice/screen keys); `hkdfRoot salt dh info` is
`Hkdf::<Sha256>::new(Some(root_key), dh_output).expand(info)` (`kdf_root`);
`blake3 k ctx` is `blake3::keyed_hash(k, ctx)` (`kdf_chain`). -/
inductive KM where
  | hkdfInit : List Nat → List Nat → KM
  | hkdfKM : KM → List Nat → KM
  | hkdfRoot : KM → Nat × Nat → List Nat → KM
  | blake3 : KM → List Nat → KM
deriving DecidableEq, Repr

/-- Symbolic AEAD ciphertext (ChaCha20-Poly1305).  `enc k n p` is the
ciphertext produced under key `k` and nonce `n` for plaintext `p`; `raw`
is any byte string that is not a valid ciphertext (e.g. random bytes),
which ideal AEAD always rejects. -/
inductive Ct where
  | enc : KM → List Nat → List Nat → Ct
  | raw : List Nat → Ct
deriving DecidableEq, Repr

/-- ASCII bytes of a string literal (the `b"..."` byte strings of the
source). -/
def strBytes (s : String) : List Nat := s.data.map Char.toNat

/-- Symbolic X25519: ephemeral secrets are identified by the index of the
random draw that produced them, and `PublicKey::from(&secret)` is modelled
as the identity on that index (injective, as collisions between
independently drawn X25519 keys are excluded from the model). -/
def dhPublic (sk : Nat) : Nat := sk

/-- Symbolic X25519 shared secret: the unordered pair of the two secrets.
This makes `diffieHellman a (dhPublic b) = diffieHellman b (dhPublic a)`,
which is the only property of X25519 the ratchet relies on. -/
def diffieHellman (sk : Nat) (pk : Nat) : Nat × Nat := (min sk pk, max sk pk)

theorem diffieHellman_comm (a b : Nat) :
    diffieHellman a (dhPublic b) = diffieHellman b (dhPublic a) := by
  simp [diffieHellman, dhPublic, Nat.min_comm, Nat.max_comm]

/-- Max number of skipped message keys to store (`MAX_SKIP` in
`ratchet.rs`). -/
def MAX_SKIP : Nat := 100

/-- Model of `const KDF_RK_INFO: &[u8] = b"wsp-ratchet-root"`. -/
def KDF_RK_INFO : List Nat := strBytes "wsp-ratchet-root"

/-- Model of `const KDF_VOICE_INFO: &[u8] = b"wsp-voice-key"`. -/
def KDF_VOICE_INFO : List Nat := strBytes "wsp-voice-key"

/-- Model of `const KDF_SCREEN_INFO: &[u8] = b"wsp-screen-key"`. -/
def KDF_SCREEN_INFO : List Nat := strBytes "wsp-screen-key"

/-- Model of `kdf_root` of `ratchet.rs`: `(root_key, dh_output)` to
`(new_root_key, chain_key)` via two HKDF expands with labels
`b"wsp-root"` and `b"wsp-chain"`. -/
def kdf_root (root_key : KM) (dh_output : Nat × Nat) : KM × KM :=
  (KM.hkdfRoot root_key dh_output (strBytes "wsp-root"),
   KM.hkdfRoot root_key dh_output (strBytes "wsp-chain"))

/-- Model of `kdf_chain` of `ratchet.rs`: two keyed BLAKE3 evaluations with
contexts `b"chain"` and `b"message"`. -/
def kdf_chain (chain_key : KM) : KM × KM :=
  (KM.blake3 chain_key (strBytes "chain"),
   KM.blake3 chain_key (strBytes "message"))

/-- Model of `encrypt_with_key` of `ratchet.rs`.  The source draws a random 12-byte
nonce from `OsRng`; here the nonce is an explicit argument.  Returns
`(nonce, ciphertext)`; the source's encryption cannot fail in the model. -/
def encrypt_with_key (key : KM) (plaintext : List Nat) (nonce : List Nat) :
    List Nat × Ct :=
  (nonce, Ct.enc key nonce plaintext)

/-- Model of `decrypt_with_key` of `ratchet.rs`: checks the 12-byte nonce length,
then ideal AEAD decryption: succeeds exactly for the key and nonce the
ciphertext was produced with. -/
def decrypt_with_key (key : KM) (nonce : List Nat) (ciphertext : Ct) :
    Except String (List Nat) :=
  if nonce.length = 12 then
    match ciphertext with
    | Ct.enc k n p =>
        if k = key ∧ n = nonce then Except.ok p
        else Except.error "Ratchet decryption failed"
    | Ct.raw _ => Except.error "Ratchet decryption failed"
  else Except.error "Nonce must be 12 bytes"

/-! ## Association-list model of the `HashMap` of skipped message keys

`skipped_keys: HashMap<SkippedKey, [u8; 32]>` keyed by
`(dh_public, msg_num)`.  Keys are unique; `insert` replaces, `remove`
deletes the key if present.  The eviction loop removes
`skipped_keys.keys().next()` — an arbitrary entry in iteration order —
modelled as the head of the list; the claims proved below do not depend
on which entry is evicted. -/

/-- Model of `HashMap::get`-style lookup in the association-list model. -/
def hmLookup (k : Nat × Nat) : List ((Nat × Nat) × KM) → Option KM
  | [] => none
  | (k', v) :: rest => if k' = k then some v else hmLookup k rest

/-- Model of `HashMap::insert`: replace the binding of `k` if present, else add it. -/
def hmInsert (k : Nat × Nat) (v : KM) : List ((Nat × Nat) × KM) →
    List ((Nat × Nat) × KM)
  | [] => [(k, v)]
  | (k', v') :: rest =>
      if k' = k then (k, v) :: rest else (k', v') :: hmInsert k v rest

/-- Model of `HashMap::remove`: drop the binding of `k` if present. -/
def hmRemove (k : Nat × Nat) : List ((Nat × Nat) × KM) →
    List ((Nat × Nat) × KM)
  | [] => []
  | (k', v') :: rest =>
      if k' = k then rest else (k', v') :: hmRemove k rest

/-- Header sent with each ratcheted message (`RatchetHeader`). -/
structure RatchetHeader where
  dh_public : Nat
  prev_chain_len : Nat
  msg_num : Nat
deriving DecidableEq, Repr

/-- The Double Ratchet session state for one peer (`RatchetSession`),
field for field as in `ratchet.rs`. -/
structure RatchetSession where
  dh_self_secret : Nat
  dh_self_public : Nat
  dh_remote : Option Nat
  root_key : KM
  chain_key_send : Option KM
  send_msg_num : Nat
  chain_key_recv : Option KM
  recv_msg_num : Nat
  prev_chain_len : Nat
  skipped_keys : List ((Nat × Nat) × KM)
  is_alice : Bool
  initial_ratchet_done : Bool
  voice_base_key : KM
  voice_key : Option KM
  screen_key : Option KM
deriving DecidableEq, Repr

namespace RatchetSession

/-- Model of `RatchetSession::init`.  `secret` is the fresh ephemeral secret the
source draws from `OsRng`. -/
def init (shared_secret : List Nat) (isAlice : Bool) (secret : Nat) :
    RatchetSession :=
  let root_key := KM.hkdfInit shared_secret KDF_RK_INFO
  let chain_a := KM.hkdfInit shared_secret (strBytes "wsp-chain-alice")
  let chain_b := KM.hkdfInit shared_secret (strBytes "wsp-chain-bob")
  let cks := if isAlice then (chain_a, chain_b) else (chain_b, chain_a)
  let voice_base_key := KM.hkdfInit shared_secret (strBytes "wsp-voice-base")
  { dh_self_secret := secret
    dh_self_public := dhPublic secret
    dh_remote := none
    root_key := root_key
    chain_key_send := some cks.1
    send_msg_num := 0
    chain_key_recv := some cks.2
    recv_msg_num := 0
    prev_chain_len := 0
    skipped_keys := []
    is_alice := isAlice
    initial_ratchet_done := false
    voice_base_key := voice_base_key
    voice_key := none
    screen_key := none }

/-- Model of `RatchetSession::public_key`. -/
def public_key (s : RatchetSession) : Nat := s.dh_self_public

/-- Model of `RatchetSession::set_remote_dh`: only sets the remote DH public when
none is recorded yet. -/
def set_remote_dh (s : RatchetSession) (remote_dh : Nat) : RatchetSession :=
  if s.dh_remote.isNone then { s with dh_remote := some remote_dh } else s

/-- Model of `RatchetSession::ratchet_send`.  `fresh` is the new ephemeral secret
drawn from `OsRng`.  Mutating Rust methods returning `Result` are modelled
as returning the result together with the (possibly mutated) state; the
source's early return on a missing remote key happens before any
mutation. -/
def ratchet_send (s : RatchetSession) (fresh : Nat) :
    Except String Unit × RatchetSession :=
  match s.dh_remote with
  | none => (Except.error "No remote DH key for send ratchet", s)
  | some remote_pub =>
      let s := { s with prev_chain_len := s.send_msg_num, send_msg_num := 0 }
      let dh_output := diffieHellman fresh remote_pub
      let kr := kdf_root s.root_key dh_output
      (Except.ok (),
        { s with
            root_key := kr.1
            chain_key_send := some kr.2
            dh_self_secret := fresh
            dh_self_public := dhPublic fresh })

/-- Model of `RatchetSession::ratchet_recv`: receive-side DH step, then an
immediate send-side step with a fresh keypair. -/
def ratchet_recv (s : RatchetSession) (new_remote_pub : Nat) (fresh : Nat) :
    Except String Unit × RatchetSession :=
  let s := { s with dh_remote := some new_remote_pub }
  let dh_output := diffieHellman s.dh_self_secret new_remote_pub
  let kr := kdf_root s.root_key dh_output
  let s := { s with
      root_key := kr.1
      chain_key_recv := some kr.2
      recv_msg_num := 0 }
  ratchet_send s fresh

/-- The `for _ in recv_msg_num..until` loop of `skip_message_keys`:
advances the chain `count` times, storing each message key under
`(dh_pub, msg_num)`.  Returns the final chain key, receive counter and
skipped map. -/
def skipLoop (dh_pub : Nat) : Nat → Nat → KM → List ((Nat × Nat) × KM) →
    KM × Nat × List ((Nat × Nat) × KM)
  | 0, recv, ck, skipped => (ck, recv, skipped)
  | count + 1, recv, ck, skipped =>
      let kc := kdf_chain ck
      skipLoop dh_pub count (recv + 1) kc.1
        (hmInsert (dh_pub, recv) kc.2 skipped)

/-- One pass of the eviction `while` loop with explicit fuel (the loop
removes one arbitrary entry — modelled as the head — per iteration while
the map holds more than `MAX_SKIP` entries; `fuel = length` always
suffices). -/
def evictFuel : Nat → List ((Nat × Nat) × KM) → List ((Nat × Nat) × KM)
  | 0, l => l
  | fuel + 1, l => if l.length > MAX_SKIP then evictFuel fuel l.tail else l

/-- The eviction loop of `skip_message_keys`: remove entries until at most
`MAX_SKIP` remain. -/
def evict (l : List ((Nat × Nat) × KM)) : List ((Nat × Nat) × KM) :=
  evictFuel l.length l

/-- Model of `RatchetSession::skip_message_keys`.  The error is raised before any
mutation, exactly as in the source (the source's error message also
interpolates the two numbers). -/
def skip_message_keys (s : RatchetSession) (untl : Nat) :
    Except String Unit × RatchetSession :=
  if untl < s.recv_msg_num then (Except.ok (), s)
  else if untl - s.recv_msg_num > MAX_SKIP then
    (Except.error "Too many skipped messages", s)
  else
    match s.chain_key_recv with
    | none => (Except.ok (), s)
    | some chain_key =>
        match s.dh_remote with
        | none => (Except.ok (), s)
        | some dh_pub =>
            let r := skipLoop dh_pub (untl - s.recv_msg_num) s.recv_msg_num
              chain_key s.skipped_keys
            (Except.ok (),
              { s with
                  chain_key_recv := some r.1
                  recv_msg_num := r.2.1
                  skipped_keys := evict r.2.2 })

/-- Model of `RatchetSession::encrypt`.  `fresh` is the ephemeral secret for the
initial send ratchet (consumed only when that ratchet fires), `nonce` the
random AEAD nonce. -/
def encrypt (s : RatchetSession) (plaintext : List Nat) (fresh : Nat)
    (nonce : List Nat) :
    Except String (RatchetHeader × List Nat × Ct) × RatchetSession :=
  let step :=
    if s.is_alice ∧ s.dh_remote.isSome ∧ ¬s.initial_ratchet_done then
      match ratchet_send s fresh with
      | (Except.ok _, s') =>
          (Except.ok (), { s' with initial_ratchet_done := true })
      | (Except.error e, s') => (Except.error e, s')
    else (Except.ok (), s)
  match step with
  | (Except.error e, s) => (Except.error e, s)
  | (Except.ok _, s) =>
      match s.chain_key_send with
      | none => (Except.error "No sending chain key", s)
      | some chain_key =>
          let kc := kdf_chain chain_key
          let s := { s with chain_key_send := some kc.1 }
          let header : RatchetHeader :=
            { dh_public := s.dh_self_public
              prev_chain_len := s.prev_chain_len
              msg_num := s.send_msg_num }
          let s := { s with send_msg_num := s.send_msg_num + 1 }
          let nc := encrypt_with_key kc.2 plaintext nonce
          (Except.ok (header, nc.1, nc.2), s)

/-- Model of `RatchetSession::decrypt`.  `fresh` is the ephemeral secret for the
send ratchet performed inside a receive-side DH step.  As in the source
(`&mut self`), the state mutations made before a failure persist — the
mutated state is returned alongside the error. -/
def decrypt (s : RatchetSession) (header : RatchetHeader)
    (nonce : List Nat) (ciphertext : Ct) (fresh : Nat) :
    Except String (List Nat) × RatchetSession :=
  let skip_key := (header.dh_public, header.msg_num)
  match hmLookup skip_key s.skipped_keys with
  | some mkey =>
      (decrypt_with_key mkey nonce ciphertext,
       { s with skipped_keys := hmRemove skip_key s.skipped_keys })
  | none =>
      let step : Bool × RatchetSession :=
        match s.dh_remote with
        | none => (false, { s with dh_remote := some header.dh_public })
        | some remote => (remote != header.dh_public, s)
      let s := step.2
      let afterRatchet : Except String Unit × RatchetSession :=
        if step.1 then
          match skip_message_keys s header.prev_chain_len with
          | (Except.error e, s) => (Except.error e, s)
          | (Except.ok _, s) => ratchet_recv s header.dh_public fresh
        else (Except.ok (), s)
      match afterRatchet with
      | (Except.error e, s) => (Except.error e, s)
      | (Except.ok _, s) =>
          match skip_message_keys s header.msg_num with
          | (Except.error e, s) => (Except.error e, s)
          | (Except.ok _, s) =>
              match s.chain_key_recv with
              | none => (Except.error "No receiving chain key", s)
              | some chain_key =>
                  let kc := kdf_chain chain_key
                  let s := { s with
                      chain_key_recv := some kc.1
                      recv_msg_num := s.recv_msg_num + 1 }
                  (decrypt_with_key kc.2 nonce ciphertext, s)

/-- Model of `RatchetSession::derive_voice_key`: memoised HKDF expand of the stable
voice base key with `KDF_VOICE_INFO`. -/
def derive_voice_key (s : RatchetSession) : KM × RatchetSession :=
  match s.voice_key with
  | some vk => (vk, s)
  | none =>
      let vk := KM.hkdfKM s.voice_base_key KDF_VOICE_INFO
      (vk, { s with voice_key := some vk })

/-- Model of `RatchetSession::derive_screen_key`: memoised HKDF expand of the
stable voice base key with `KDF_SCREEN_INFO`. -/
def derive_screen_key (s : RatchetSession) : KM × RatchetSession :=
  match s.screen_key with
  | some sk => (sk, s)
  | none =>
      let sk := KM.hkdfKM s.voice_base_key KDF_SCREEN_INFO
      (sk, { s with screen_key := some sk })

/-- Model of `RatchetSession::clear_screen_key` (zeroisation is not observable in
the model). -/
def clear_screen_key (s : RatchetSession) : RatchetSession :=
  { s with screen_key := none }

/-- Model of `RatchetSession::clear_voice_key`. -/
def clear_voice_key (s : RatchetSession) : RatchetSession :=
  { s with voice_key := none }

end RatchetSession

/-! ## Two-party protocol runs

A run drives one `alice = init(ss, true)` and one `bob = init(ss, false)`
session and delivers every ciphertext produced by one side to the other,
in order.  In a send-burst the sender only encrypts and the receiver only
decrypts, and each side's operations happen in program order, so an
arbitrary interleaving of alternating send-bursts performs, per session,
exactly the same operation sequence as delivering each message right after
it is encrypted; a run is therefore a list of `(sender, payload)` pairs.

The `ctr` field models `OsRng`: each step consumes fresh values `ctr` and
`ctr + 1` for the ephemeral secrets the two sides might draw, so fresh
secrets are pairwise distinct and distinct from earlier ones. -/

/-- The state of a two-party run: both sessions plus the randomness
counter. -/
structure Sys where
  alice : RatchetSession
  bob : RatchetSession
  ctr : Nat
deriving DecidableEq, Repr

/-- The random 12-byte AEAD nonce for step `n` of a run. -/
def nonceOf (n : Nat) : List Nat := List.replicate 12 n

/-- Deliver one message: the chosen sender encrypts `pt`, the other side
decrypts the resulting `(header, nonce, ciphertext)`.  Returns the new
system state and the decrypted plaintext. -/
def sendRecv (sys : Sys) (fromAlice : Bool) (pt : List Nat) :
    Except String (Sys × List Nat) :=
  if fromAlice then
    match sys.alice.encrypt pt sys.ctr (nonceOf sys.ctr) with
    | (Except.error e, _) => Except.error e
    | (Except.ok (h, nz, ct), a') =>
        match sys.bob.decrypt h nz ct (sys.ctr + 1) with
        | (Except.error e, _) => Except.error e
        | (Except.ok p, b') => Except.ok (⟨a', b', sys.ctr + 2⟩, p)
  else
    match sys.bob.encrypt pt sys.ctr (nonceOf sys.ctr) with
    | (Except.error e, _) => Except.error e
    | (Except.ok (h, nz, ct), b') =>
        match sys.alice.decrypt h nz ct (sys.ctr + 1) with
        | (Except.error e, _) => Except.error e
        | (Except.ok p, a') => Except.ok (⟨a', b', sys.ctr + 2⟩, p)

/-- Run a whole message sequence, collecting the decrypted plaintexts in
order. -/
def runMsgs (sys : Sys) : List (Bool × List Nat) →
    Except String (Sys × List (List Nat))
  | [] => Except.ok (sys, [])
  | (side, pt) :: rest =>
      match sendRecv sys side pt with
      | Except.error e => Except.error e
      | Except.ok (sys', p) =>
          match runMsgs sys' rest with
          | Except.error e => Except.error e
          | Except.ok (sysF, ps) => Except.ok (sysF, p :: ps)

/-- Both sides constructed from the shared secret, with the initial DH
publics exchanged via `set_remote_dh` on both sides (as the client's key
exchange and the repository's tests do). -/
def initSysDH (ss : List Nat) : Sys :=
  let a := RatchetSession.init ss true 0
  let b := RatchetSession.init ss false 1
  ⟨a.set_remote_dh b.public_key, b.set_remote_dh a.public_key, 2⟩

/-- Both sides constructed from the shared secret with no initial DH
exchange (`set_remote_dh` never called). -/
def initSysNoDH (ss : List Nat) : Sys :=
  ⟨RatchetSession.init ss true 0, RatchetSession.init ss false 1, 2⟩

/-! ## Reachable single-session states

`Evolved ss isAlice s` holds when `s` is produced from
`init ss isAlice` by any sequence of the session's public operations,
with any arguments, keeping the state a failed call leaves behind
(matching `&mut self` in the source). -/

/-- Single-session reachability: `init` followed by any sequence of
`encrypt`, `decrypt`, `set_remote_dh`, `derive_voice_key`,
`derive_screen_key`, `clear_voice_key`, `clear_screen_key`. -/
inductive Evolved (ss : List Nat) (isAlice : Bool) : RatchetSession → Prop
  | init (secret : Nat) : Evolved ss isAlice (RatchetSession.init ss isAlice secret)
  | encrypt {s} (pt : List Nat) (fresh : Nat) (nonce : List Nat) :
      Evolved ss isAlice s → Evolved ss isAlice (s.encrypt pt fresh nonce).2
  | decrypt {s} (h : RatchetHeader) (nonce : List Nat) (ct : Ct) (fresh : Nat) :
      Evolved ss isAlice s → Evolved ss isAlice (s.decrypt h nonce ct fresh).2
  | set_remote_dh {s} (pk : Nat) :
      Evolved ss isAlice s → Evolved ss isAlice (s.set_remote_dh pk)
  | derive_voice_key {s} :
      Evolved ss isAlice s → Evolved ss isAlice s.derive_voice_key.2
  | derive_screen_key {s} :
      Evolved ss isAlice s → Evolved ss isAlice s.derive_screen_key.2
  | clear_voice_key {s} :
      Evolved ss isAlice s → Evolved ss isAlice s.clear_voice_key
  | clear_screen_key {s} :
      Evolved ss isAlice s → Evolved ss isAlice s.clear_screen_key

/-! ## The reachable two-party configurations

With the initial DH publics exchanged, a run is always in one of two
shapes between deliveries: the *pre-run* shape, where Alice has not yet
sent (her first `encrypt` performs the initial send ratchet), and the
*running* shape, where one side was the last to send and the other has
already answered that side's current DH public with a receive-plus-send
ratchet step. -/

/-- HKDF of the shared secret with the root-key label. -/
def rootInit (ss : List Nat) : KM := KM.hkdfInit ss KDF_RK_INFO

/-- HKDF of the shared secret with the `wsp-chain-alice` label. -/
def chainA (ss : List Nat) : KM := KM.hkdfInit ss (strBytes "wsp-chain-alice")

/-- HKDF of the shared secret with the `wsp-chain-bob` label. -/
def chainB (ss : List Nat) : KM := KM.hkdfInit ss (strBytes "wsp-chain-bob")

/-- HKDF of the shared secret with the `wsp-voice-base` label. -/
def voiceBase (ss : List Nat) : KM :=
  KM.hkdfInit ss (strBytes "wsp-voice-base")

/-- The chain key after `n` symmetric-chain advancements. -/
def advChain (c : KM) : Nat → KM
  | 0 => c
  | n + 1 => (kdf_chain (advChain c n)).1

/-- Pre-run Alice: initial secret `a0`, remote DH `b0` from the exchange,
`n` messages received on Bob's initial chain, nothing sent yet. -/
def preA (ss : List Nat) (a0 b0 n : Nat) : RatchetSession :=
  { dh_self_secret := a0
    dh_self_public := a0
    dh_remote := some b0
    root_key := rootInit ss
    chain_key_send := some (chainA ss)
    send_msg_num := 0
    chain_key_recv := some (advChain (chainB ss) n)
    recv_msg_num := n
    prev_chain_len := 0
    skipped_keys := []
    is_alice := true
    initial_ratchet_done := false
    voice_base_key := voiceBase ss
    voice_key := none
    screen_key := none }

/-- Pre-run Bob: `n` messages sent on his initial chain, nothing
received. -/
def preB (ss : List Nat) (a0 b0 n : Nat) : RatchetSession :=
  { dh_self_secret := b0
    dh_self_public := b0
    dh_remote := some a0
    root_key := rootInit ss
    chain_key_send := some (advChain (chainB ss) n)
    send_msg_num := n
    chain_key_recv := some (chainA ss)
    recv_msg_num := 0
    prev_chain_len := 0
    skipped_keys := []
    is_alice := false
    initial_ratchet_done := false
    voice_base_key := voiceBase ss
    voice_key := none
    screen_key := none }

/-- Running-phase last sender: current secret `sk`, remote DH still the
peer's previous public `rOld`, root `rho`, `m` messages sent on the chain
`c` derived at this side's last ratchet, receive side parked at the end of
the peer's previous chain (`q` messages consumed, chain key `w`,
`prevLen` recorded from this side's previous chain). -/
def runSd (roleAlice : Bool) (ss : List Nat) (sk rOld : Nat) (rho c : KM)
    (m : Nat) (w : KM) (q prevLen : Nat) : RatchetSession :=
  { dh_self_secret := sk
    dh_self_public := sk
    dh_remote := some rOld
    root_key := rho
    chain_key_send := some (advChain c m)
    send_msg_num := m
    chain_key_recv := some w
    recv_msg_num := q
    prev_chain_len := prevLen
    skipped_keys := []
    is_alice := roleAlice
    initial_ratchet_done := roleAlice
    voice_base_key := voiceBase ss
    voice_key := none
    screen_key := none }

/-- Running-phase last receiver: has consumed all `m` messages of the
sender's chain `c`, performed the receive-then-send ratchet for the
sender's current public `sSk`, holds a fresh unused send chain, and
recorded its previous chain length `q` (matching the sender's receive
counter). -/
def runRc (roleAlice : Bool) (ss : List Nat) (sk sSk : Nat) (rho c : KM)
    (m q : Nat) : RatchetSession :=
  { dh_self_secret := sk
    dh_self_public := sk
    dh_remote := some sSk
    root_key := (kdf_root rho (diffieHellman sk sSk)).1
    chain_key_send := some (kdf_root rho (diffieHellman sk sSk)).2
    send_msg_num := 0
    chain_key_recv := some (advChain c m)
    recv_msg_num := m
    prev_chain_len := q
    skipped_keys := []
    is_alice := roleAlice
    initial_ratchet_done := roleAlice
    voice_base_key := voiceBase ss
    voice_key := none
    screen_key := none }

/-- The two-party invariant for DH-exchanged runs: either still pre-run,
or running with one of the two orientations. -/
def Inv (sys : Sys) : Prop :=
  (∃ ss a0 b0 n, a0 < sys.ctr ∧ b0 < sys.ctr ∧
    sys.alice = preA ss a0 b0 n ∧ sys.bob = preB ss a0 b0 n) ∨
  (∃ ss sSk rSk rOld rho c m w q prevLen,
    sSk < sys.ctr ∧ rSk < sys.ctr ∧ rOld ≠ rSk ∧
    ((sys.alice = runSd true ss sSk rOld rho c m w q prevLen ∧
      sys.bob = runRc false ss rSk sSk rho c m q) ∨
     (sys.bob = runSd false ss sSk rOld rho c m w q prevLen ∧
      sys.alice = runRc true ss rSk sSk rho c m q)))

/-! ### Single-delivery transition lemmas -/

theorem step_pre_bob (ss : List Nat) (a0 b0 n ctr : Nat) (pt : List Nat) :
    sendRecv ⟨preA ss a0 b0 n, preB ss a0 b0 n, ctr⟩ false pt =
      Except.ok (⟨preA ss a0 b0 (n + 1), preB ss a0 b0 (n + 1), ctr + 2⟩, pt) := by
  simp [sendRecv, RatchetSession.encrypt, RatchetSession.decrypt, preA, preB,
    RatchetSession.skip_message_keys, RatchetSession.skipLoop,
    RatchetSession.evict, RatchetSession.evictFuel, hmLookup,
    encrypt_with_key, decrypt_with_key, nonceOf, advChain, MAX_SKIP]

theorem step_pre_alice (ss : List Nat) (a0 b0 n ctr : Nat) (pt : List Nat)
    (ha : a0 ≠ ctr) :
    sendRecv ⟨preA ss a0 b0 n, preB ss a0 b0 n, ctr⟩ true pt =
      Except.ok (⟨runSd true ss ctr b0
          (kdf_root (rootInit ss) (diffieHellman ctr b0)).1
          (kdf_root (rootInit ss) (diffieHellman ctr b0)).2 1
          (advChain (chainB ss) n) n 0,
        runRc false ss (ctr + 1) ctr
          (kdf_root (rootInit ss) (diffieHellman ctr b0)).1
          (kdf_root (rootInit ss) (diffieHellman ctr b0)).2 1 n,
        ctr + 2⟩, pt) := by
  simp [sendRecv, RatchetSession.encrypt, RatchetSession.decrypt, preA, preB,
    runSd, runRc, RatchetSession.ratchet_send, RatchetSession.ratchet_recv,
    RatchetSession.skip_message_keys, RatchetSession.skipLoop,
    RatchetSession.evict, RatchetSession.evictFuel, hmLookup,
    encrypt_with_key, decrypt_with_key, nonceOf, advChain, MAX_SKIP,
    dhPublic, diffieHellman, ha, Ne.symm ha, Nat.min_comm, Nat.max_comm]

theorem step_run_alice_again (ss : List Nat) (sSk rOld : Nat) (rho c : KM)
    (m : Nat) (w : KM) (q prevLen rSk ctr : Nat) (pt : List Nat) :
    sendRecv ⟨runSd true ss sSk rOld rho c m w q prevLen,
        runRc false ss rSk sSk rho c m q, ctr⟩ true pt =
      Except.ok (⟨runSd true ss sSk rOld rho c (m + 1) w q prevLen,
        runRc false ss rSk sSk rho c (m + 1) q, ctr + 2⟩, pt) := by
  simp [sendRecv, RatchetSession.encrypt, RatchetSession.decrypt, runSd, runRc,
    RatchetSession.skip_message_keys, RatchetSession.skipLoop,
    RatchetSession.evict, RatchetSession.evictFuel, hmLookup,
    encrypt_with_key, decrypt_with_key, nonceOf, advChain, MAX_SKIP]

theorem step_run_bob_again (ss : List Nat) (sSk rOld : Nat) (rho c : KM)
    (m : Nat) (w : KM) (q prevLen rSk ctr : Nat) (pt : List Nat) :
    sendRecv ⟨runRc true ss rSk sSk rho c m q,
        runSd false ss sSk rOld rho c m w q prevLen, ctr⟩ false pt =
      Except.ok (⟨runRc true ss rSk sSk rho c (m + 1) q,
        runSd false ss sSk rOld rho c (m + 1) w q prevLen, ctr + 2⟩, pt) := by
  simp [sendRecv, RatchetSession.encrypt, RatchetSession.decrypt, runSd, runRc,
    RatchetSession.skip_message_keys, RatchetSession.skipLoop,
    RatchetSession.evict, RatchetSession.evictFuel, hmLookup,
    encrypt_with_key, decrypt_with_key, nonceOf, advChain, MAX_SKIP]

theorem step_run_bob_answers (ss : List Nat) (sSk rOld : Nat) (rho c : KM)
    (m : Nat) (w : KM) (q prevLen rSk ctr : Nat) (pt : List Nat)
    (h : rOld ≠ rSk) :
    sendRecv ⟨runSd true ss sSk rOld rho c m w q prevLen,
        runRc false ss rSk sSk rho c m q, ctr⟩ false pt =
      Except.ok (⟨runRc true ss (ctr + 1) rSk
          (kdf_root rho (diffieHellman rSk sSk)).1
          (kdf_root rho (diffieHellman rSk sSk)).2 1 m,
        runSd false ss rSk sSk
          (kdf_root rho (diffieHellman rSk sSk)).1
          (kdf_root rho (diffieHellman rSk sSk)).2 1 (advChain c m) m q,
        ctr + 2⟩, pt) := by
  simp [sendRecv, RatchetSession.encrypt, RatchetSession.decrypt, runSd, runRc,
    RatchetSession.ratchet_send, RatchetSession.ratchet_recv,
    RatchetSession.skip_message_keys, RatchetSession.skipLoop,
    RatchetSession.evict, RatchetSession.evictFuel, hmLookup,
    encrypt_with_key, decrypt_with_key, nonceOf, advChain, MAX_SKIP,
    dhPublic, diffieHellman, h, Ne.symm h, Nat.min_comm, Nat.max_comm]

theorem step_run_alice_answers (ss : List Nat) (sSk rOld : Nat) (rho c : KM)
    (m : Nat) (w : KM) (q prevLen rSk ctr : Nat) (pt : List Nat)
    (h : rOld ≠ rSk) :
    sendRecv ⟨runRc true ss rSk sSk rho c m q,
        runSd false ss sSk rOld rho c m w q prevLen, ctr⟩ true pt =
      Except.ok (⟨runSd true ss rSk sSk
          (kdf_root rho (diffieHellman rSk sSk)).1
          (kdf_root rho (diffieHellman rSk sSk)).2 1 (advChain c m) m q,
        runRc false ss (ctr + 1) rSk
          (kdf_root rho (diffieHellman rSk sSk)).1
          (kdf_root rho (diffieHellman rSk sSk)).2 1 m,
        ctr + 2⟩, pt) := by
  simp [sendRecv, RatchetSession.encrypt, RatchetSession.decrypt, runSd, runRc,
    RatchetSession.ratchet_send, RatchetSession.ratchet_recv,
    RatchetSession.skip_message_keys, RatchetSession.skipLoop,
    RatchetSession.evict, RatchetSession.evictFuel, hmLookup,
    encrypt_with_key, decrypt_with_key, nonceOf, advChain, MAX_SKIP,
    dhPublic, diffieHellman, h, Ne.symm h, Nat.min_comm, Nat.max_comm]

/-- One delivery preserves the invariant and decrypts to the plaintext
that was encrypted. -/
theorem step_inv (sys : Sys) (side : Bool) (pt : List Nat) (h : Inv sys) :
    ∃ sys', sendRecv sys side pt = Except.ok (sys', pt) ∧ Inv sys' := by
  obtain ⟨A, B, ctr⟩ := sys
  rcases h with ⟨ss, a0, b0, n, ha, hb, hA, hB⟩ |
    ⟨ss, sSk, rSk, rOld, rho, c, m, w, q, prevLen, hs, hr, hne, hor⟩
  · dsimp only at ha hb hA hB
    subst hA; subst hB
    cases side
    · exact ⟨_, step_pre_bob ss a0 b0 n ctr pt,
        Or.inl ⟨ss, a0, b0, n + 1, by dsimp only; omega, by dsimp only; omega,
          rfl, rfl⟩⟩
    · refine ⟨_, step_pre_alice ss a0 b0 n ctr pt (by omega), ?_⟩
      exact Or.inr ⟨ss, ctr, ctr + 1, b0,
        (kdf_root (rootInit ss) (diffieHellman ctr b0)).1,
        (kdf_root (rootInit ss) (diffieHellman ctr b0)).2, 1,
        advChain (chainB ss) n, n, 0, by dsimp only; omega,
        by dsimp only; omega, by omega, Or.inl ⟨rfl, rfl⟩⟩
  · dsimp only at hs hr
    rcases hor with ⟨hA, hB⟩ | ⟨hB, hA⟩
    · dsimp only at hA hB
      subst hA; subst hB
      cases side
      · refine ⟨_, step_run_bob_answers ss sSk rOld rho c m w q prevLen rSk
          ctr pt hne, ?_⟩
        exact Or.inr ⟨ss, rSk, ctr + 1, sSk,
          (kdf_root rho (diffieHellman rSk sSk)).1,
          (kdf_root rho (diffieHellman rSk sSk)).2, 1, advChain c m, m, q,
          by dsimp only; omega, by dsimp only; omega, by omega,
          Or.inr ⟨rfl, rfl⟩⟩
      · exact ⟨_, step_run_alice_again ss sSk rOld rho c m w q prevLen rSk
          ctr pt,
          Or.inr ⟨ss, sSk, rSk, rOld, rho, c, m + 1, w, q, prevLen,
            by dsimp only; omega, by dsimp only; omega, hne,
            Or.inl ⟨rfl, rfl⟩⟩⟩
    · dsimp only at hA hB
      subst hA; subst hB
      cases side
      · exact ⟨_, step_run_bob_again ss sSk rOld rho c m w q prevLen rSk
          ctr pt,
          Or.inr ⟨ss, sSk, rSk, rOld, rho, c, m + 1, w, q, prevLen,
            by dsimp only; omega, by dsimp only; omega, hne,
            Or.inr ⟨rfl, rfl⟩⟩⟩
      · refine ⟨_, step_run_alice_answers ss sSk rOld rho c m w q prevLen rSk
          ctr pt hne, ?_⟩
        exact Or.inr ⟨ss, rSk, ctr + 1, sSk,
          (kdf_root rho (diffieHellman rSk sSk)).1,
          (kdf_root rho (diffieHellman rSk sSk)).2, 1, advChain c m, m, q,
          by dsimp only; omega, by dsimp only; omega, by omega,
          Or.inl ⟨rfl, rfl⟩⟩

/-- Any message sequence from an invariant state succeeds and returns the
payloads in order. -/
theorem runMsgs_inv (msgs : List (Bool × List Nat)) :
    ∀ sys : Sys, Inv sys →
      ∃ sysF, runMsgs sys msgs = Except.ok (sysF, msgs.map Prod.snd) := by
  induction msgs with
  | nil => exact fun sys _ => ⟨sys, rfl⟩
  | cons hd tl ih =>
      intro sys h
      obtain ⟨sys', hstep, hinv⟩ := step_inv sys hd.1 hd.2 h
      obtain ⟨sysF, hrun⟩ := ih sys' hinv
      exact ⟨sysF, by simp [runMsgs, hstep, hrun]⟩

/-- The initial DH-exchanged system satisfies the invariant. -/
theorem initSysDH_inv (ss : List Nat) : Inv (initSysDH ss) := by
  refine Or.inl ⟨ss, 0, 1, 0, ?_, ?_, ?_, ?_⟩ <;>
    simp [initSysDH, RatchetSession.init, RatchetSession.set_remote_dh,
      RatchetSession.public_key, preA, preB, rootInit, chainA, chainB,
      voiceBase, advChain, dhPublic]

/-- C1 (counterexample to the claim as stated): the claim makes the
initial `set_remote_dh` exchange optional.  Without it, if Bob sends
first (delivered fine) and Alice then replies, Alice's first `encrypt`
performs the initial send ratchet (she adopted Bob's DH public on
receive), but Bob — who never learned Alice's initial DH public — does
not detect the DH change and decrypts on the wrong chain: the second
delivery fails instead of returning the original plaintext. -/
theorem c1_counterexample :
    runMsgs (initSysNoDH [42]) [(false, [7]), (true, [8])] =
      Except.error "Ratchet decryption failed" := rfl

/-- C1 (amended): with the initial DH publics exchanged via
`set_remote_dh` on both sides, every delivery in any sequence of
alternating send-bursts — any payloads, any interleaving, either side
first — decrypts successfully at the peer, exactly once, in order: the
list of decrypted plaintexts equals the list of sent payloads. -/
theorem c1_roundtrip_amended (ss : List Nat) (msgs : List (Bool × List Nat)) :
    ∃ sysF, runMsgs (initSysDH ss) msgs = Except.ok (sysF, msgs.map Prod.snd) :=
  runMsgs_inv msgs _ (initSysDH_inv ss)

/-! ## AEAD-failure and excessive-skip behaviour (C2, C3)

`decrypt` advances the receive chain and counter *before* AEAD
verification, and adopts a previously unknown remote DH public *before*
the skip bound is checked, so a failed decrypt is not atomic. -/

/-- A session as the receiver holds it right after the bootstrap: `init`
with the peer's initial DH public installed via `set_remote_dh`. -/
def c2Session : RatchetSession :=
  (RatchetSession.init [42] false 1).set_remote_dh 0

/-- Decrypting a well-formed header whose ciphertext is garbage (`raw`
bytes fail AEAD authentication). -/
def c2Result : Except String (List Nat) × RatchetSession :=
  c2Session.decrypt ⟨0, 0, 0⟩ (List.replicate 12 0) (Ct.raw [1, 2, 3]) 5

/-- C2 (the code violates the claim): decrypt of garbage ciphertext under
a well-formed header returns the AEAD failure, but the receive message
counter has advanced from 0 to 1 and the receiving chain key has been
replaced — the source derives the message key and commits the new chain
state before `decrypt_with_key` verifies the ciphertext.  The send
counter and sending chain are unchanged. -/
theorem c2_mutation_on_aead_failure :
    c2Result.1 = Except.error "Ratchet decryption failed" ∧
    c2Session.recv_msg_num = 0 ∧ c2Result.2.recv_msg_num = 1 ∧
    c2Result.2.chain_key_recv ≠ c2Session.chain_key_recv ∧
    c2Result.2.send_msg_num = c2Session.send_msg_num ∧
    c2Result.2.chain_key_send = c2Session.chain_key_send :=
  ⟨rfl, rfl, rfl, by decide, rfl, rfl⟩

/-- A freshly initialised responder session with no remote DH public
recorded. -/
def c3Session : RatchetSession := RatchetSession.init [42] false 1

/-- Decrypting a header that demands skipping 200 > MAX_SKIP messages in
one gap. -/
def c3Result : Except String (List Nat) × RatchetSession :=
  c3Session.decrypt ⟨0, 0, 200⟩ (List.replicate 12 0) (Ct.raw []) 5

/-- C3 (the code violates the claim): a header demanding an excessive
skip returns the excessive-skip error, but when no remote DH public was
recorded the session has adopted the header's DH public into `dh_remote`
before the skip bound was checked — the state is mutated despite the
error. -/
theorem c3_mutation_on_excessive_skip :
    c3Result.1 = Except.error "Too many skipped messages" ∧
    c3Session.dh_remote = none ∧ c3Result.2.dh_remote = some 0 :=
  ⟨rfl, rfl, rfl⟩

/-! ## `set_remote_dh` is first-write-wins (C10) -/

/-- C10: when a remote DH public is already recorded, `set_remote_dh`
leaves the whole session unchanged; when none is recorded, it records the
given public and changes nothing else. -/
theorem c10_set_remote_dh_first_write_wins (s : RatchetSession) (pk : Nat) :
    (∀ r, s.dh_remote = some r → s.set_remote_dh pk = s) ∧
    (s.dh_remote = none →
      s.set_remote_dh pk = { s with dh_remote := some pk }) := by
  constructor
  · intro r hr
    simp [RatchetSession.set_remote_dh, hr]
  · intro hr
    simp [RatchetSession.set_remote_dh, hr]

/-- Witness for C10 at a concrete session: the first call records the
public, the second call with a different public is a no-op. -/
theorem c10_witness :
    (RatchetSession.init [42] true 0).set_remote_dh 7 =
      { RatchetSession.init [42] true 0 with dh_remote := some 7 } ∧
    ((RatchetSession.init [42] true 0).set_remote_dh 7).set_remote_dh 9 =
      (RatchetSession.init [42] true 0).set_remote_dh 7 :=
  ⟨(c10_set_remote_dh_first_write_wins _ 7).2 rfl,
   (c10_set_remote_dh_first_write_wins _ 9).1 7 rfl⟩

/-! ## Invariants of reachable single sessions (C5, C6, C9) -/

/-- The state invariant every reachable session satisfies: the sending
chain key is present, the skipped-key map is bounded, the media base key
is the one derived at `init` from the shared secret, and the cached
voice/screen keys (when present) are the ones derived from it. -/
def SessionOK (ss : List Nat) (s : RatchetSession) : Prop :=
  s.chain_key_send.isSome = true ∧
  s.skipped_keys.length ≤ MAX_SKIP ∧
  s.voice_base_key = voiceBase ss ∧
  (s.voice_key = none ∨
    s.voice_key = some (KM.hkdfKM (voiceBase ss) KDF_VOICE_INFO)) ∧
  (s.screen_key = none ∨
    s.screen_key = some (KM.hkdfKM (voiceBase ss) KDF_SCREEN_INFO))

theorem evictFuel_length (fuel : Nat) :
    ∀ l : List ((Nat × Nat) × KM), l.length ≤ fuel + MAX_SKIP →
      (RatchetSession.evictFuel fuel l).length ≤ MAX_SKIP := by
  induction fuel with
  | zero => intro l h; simpa [RatchetSession.evictFuel] using h
  | succ n ih =>
      intro l h
      by_cases hl : l.length > MAX_SKIP
      · have := ih l.tail (by simp [List.length_tail]; omega)
        simpa [RatchetSession.evictFuel, hl] using this
      · simp [RatchetSession.evictFuel, hl]
        omega

theorem evict_length (l : List ((Nat × Nat) × KM)) :
    (RatchetSession.evict l).length ≤ MAX_SKIP :=
  evictFuel_length l.length l (by omega)

theorem hmRemove_length_le (k : Nat × Nat) (l : List ((Nat × Nat) × KM)) :
    (hmRemove k l).length ≤ l.length := by
  induction l with
  | nil => simp [hmRemove]
  | cons hd tl ih =>
      by_cases h : hd.1 = k <;> simp [hmRemove, h] <;> omega

/-- The function `skip_message_keys` touches only the receive chain, the receive
counter and the skipped map, and leaves the latter within the bound. -/
theorem skip_message_keys_fields (s : RatchetSession) (untl : Nat) :
    ((s.skip_message_keys untl).2.chain_key_send = s.chain_key_send) ∧
    ((s.skip_message_keys untl).2.voice_base_key = s.voice_base_key) ∧
    ((s.skip_message_keys untl).2.voice_key = s.voice_key) ∧
    ((s.skip_message_keys untl).2.screen_key = s.screen_key) ∧
    (s.skipped_keys.length ≤ MAX_SKIP →
      (s.skip_message_keys untl).2.skipped_keys.length ≤ MAX_SKIP) := by
  unfold RatchetSession.skip_message_keys
  by_cases h1 : untl < s.recv_msg_num
  · simp [h1]
  · by_cases h2 : untl - s.recv_msg_num > MAX_SKIP
    · simp [h1, h2]
    · cases hck : s.chain_key_recv with
      | none => simp [h1, h2, hck]
      | some ck =>
          cases hdr : s.dh_remote with
          | none => simp [h1, h2, hck, hdr]
          | some dh_pub =>
              simp [h1, h2, hck, hdr, evict_length]

/-- The function `ratchet_send` never touches the skipped map or the media keys, and
on the success path installs a sending chain key. -/
theorem ratchet_send_fields (s : RatchetSession) (fresh : Nat) :
    ((s.ratchet_send fresh).2.skipped_keys = s.skipped_keys) ∧
    ((s.ratchet_send fresh).2.voice_base_key = s.voice_base_key) ∧
    ((s.ratchet_send fresh).2.voice_key = s.voice_key) ∧
    ((s.ratchet_send fresh).2.screen_key = s.screen_key) ∧
    (s.chain_key_send.isSome = true →
      (s.ratchet_send fresh).2.chain_key_send.isSome = true) := by
  unfold RatchetSession.ratchet_send
  cases hdr : s.dh_remote <;> simp [hdr]

/-- The function `ratchet_recv` never touches the skipped map or the media keys, and
always leaves a sending chain key in place (its trailing `ratchet_send`
runs with the remote public it just installed). -/
theorem ratchet_recv_fields (s : RatchetSession) (p fresh : Nat) :
    ((s.ratchet_recv p fresh).2.skipped_keys = s.skipped_keys) ∧
    ((s.ratchet_recv p fresh).2.voice_base_key = s.voice_base_key) ∧
    ((s.ratchet_recv p fresh).2.voice_key = s.voice_key) ∧
    ((s.ratchet_recv p fresh).2.screen_key = s.screen_key) ∧
    ((s.ratchet_recv p fresh).2.chain_key_send.isSome = true) := by
  unfold RatchetSession.ratchet_recv RatchetSession.ratchet_send
  simp

/-- The function `encrypt` touches neither the skipped map nor the media keys; with a
sending chain key present it keeps one present and always succeeds. -/
theorem encrypt_fields (s : RatchetSession) (pt : List Nat) (fresh : Nat)
    (nz : List Nat) :
    ((s.encrypt pt fresh nz).2.skipped_keys = s.skipped_keys) ∧
    ((s.encrypt pt fresh nz).2.voice_base_key = s.voice_base_key) ∧
    ((s.encrypt pt fresh nz).2.voice_key = s.voice_key) ∧
    ((s.encrypt pt fresh nz).2.screen_key = s.screen_key) ∧
    (s.chain_key_send.isSome = true →
      (s.encrypt pt fresh nz).2.chain_key_send.isSome = true ∧
      ∃ v, (s.encrypt pt fresh nz).1 = Except.ok v) := by
  unfold RatchetSession.encrypt RatchetSession.ratchet_send
  cases hdr : s.dh_remote with
  | none =>
      cases hck : s.chain_key_send <;>
        cases ha : s.is_alice <;>
          cases hdone : s.initial_ratchet_done <;> simp [hdr, hck, ha, hdone]
  | some r =>
      cases hck : s.chain_key_send <;>
        cases ha : s.is_alice <;>
          cases hdone : s.initial_ratchet_done <;> simp [hdr, hck, ha, hdone]

/-- Single-field corollaries of the preservation lemmas, used to push
facts through `decrypt`'s branches. -/
theorem skip_vbk (s : RatchetSession) (u : Nat) :
    (s.skip_message_keys u).2.voice_base_key = s.voice_base_key :=
  (skip_message_keys_fields s u).2.1

theorem skip_vk (s : RatchetSession) (u : Nat) :
    (s.skip_message_keys u).2.voice_key = s.voice_key :=
  (skip_message_keys_fields s u).2.2.1

theorem skip_sck (s : RatchetSession) (u : Nat) :
    (s.skip_message_keys u).2.screen_key = s.screen_key :=
  (skip_message_keys_fields s u).2.2.2.1

theorem skip_cks (s : RatchetSession) (u : Nat) :
    (s.skip_message_keys u).2.chain_key_send = s.chain_key_send :=
  (skip_message_keys_fields s u).1

theorem skip_len (s : RatchetSession) (u : Nat)
    (hb : s.skipped_keys.length ≤ MAX_SKIP) :
    (s.skip_message_keys u).2.skipped_keys.length ≤ MAX_SKIP :=
  (skip_message_keys_fields s u).2.2.2.2 hb

theorem rrecv_vbk (s : RatchetSession) (p fresh : Nat) :
    (s.ratchet_recv p fresh).2.voice_base_key = s.voice_base_key :=
  (ratchet_recv_fields s p fresh).2.1

theorem rrecv_vk (s : RatchetSession) (p fresh : Nat) :
    (s.ratchet_recv p fresh).2.voice_key = s.voice_key :=
  (ratchet_recv_fields s p fresh).2.2.1

theorem rrecv_sck (s : RatchetSession) (p fresh : Nat) :
    (s.ratchet_recv p fresh).2.screen_key = s.screen_key :=
  (ratchet_recv_fields s p fresh).2.2.2.1

theorem rrecv_cks (s : RatchetSession) (p fresh : Nat) :
    (s.ratchet_recv p fresh).2.chain_key_send.isSome = true :=
  (ratchet_recv_fields s p fresh).2.2.2.2

theorem rrecv_skipped (s : RatchetSession) (p fresh : Nat) :
    (s.ratchet_recv p fresh).2.skipped_keys = s.skipped_keys :=
  (ratchet_recv_fields s p fresh).1

/-- The function `decrypt` never touches the media keys, keeps a sending chain key
present when one was, and keeps the skipped map within the bound. -/
theorem decrypt_fields (s : RatchetSession) (h : RatchetHeader)
    (nz : List Nat) (ct : Ct) (fresh : Nat) :
    ((s.decrypt h nz ct fresh).2.voice_base_key = s.voice_base_key) ∧
    ((s.decrypt h nz ct fresh).2.voice_key = s.voice_key) ∧
    ((s.decrypt h nz ct fresh).2.screen_key = s.screen_key) ∧
    (s.chain_key_send.isSome = true →
      (s.decrypt h nz ct fresh).2.chain_key_send.isSome = true) ∧
    (s.skipped_keys.length ≤ MAX_SKIP →
      (s.decrypt h nz ct fresh).2.skipped_keys.length ≤ MAX_SKIP) := by
  unfold RatchetSession.decrypt
  cases hlk : hmLookup (h.dh_public, h.msg_num) s.skipped_keys with
  | some mkey =>
      dsimp only
      rw [hlk]
      exact ⟨rfl, rfl, rfl, fun hc => hc,
        fun hb => le_trans (hmRemove_length_le _ _) hb⟩
  | none =>
      cases hdr : s.dh_remote with
      | none =>
          simp only [hlk, hdr]
          rw [if_neg Bool.false_ne_true]
          split
          next e1 s1 heq => exact absurd heq (by simp)
          next a1 s1 heq =>
            have h2 : ({ s with dh_remote := some h.dh_public } :
                RatchetSession) = s1 := congrArg Prod.snd heq
            subst h2
            split
            next e2 s2 heq2 =>
              have h3 := congrArg Prod.snd heq2
              dsimp only at h3
              subst h3
              exact ⟨skip_vbk _ _, skip_vk _ _, skip_sck _ _,
                fun hc => by rw [skip_cks]; exact hc,
                fun hb => skip_len _ _ hb⟩
            next a2 s2 heq2 =>
              have h3 := congrArg Prod.snd heq2
              dsimp only at h3
              subst h3
              split
              next heq3 =>
                exact ⟨skip_vbk _ _, skip_vk _ _, skip_sck _ _,
                  fun hc => by rw [skip_cks]; exact hc,
                  fun hb => skip_len _ _ hb⟩
              next ck heq3 =>
                exact ⟨skip_vbk _ _, skip_vk _ _, skip_sck _ _,
                  fun hc => by rw [show ∀ t : RatchetSession,
                      t.chain_key_send = t.chain_key_send from fun t => rfl,
                    skip_cks]; exact hc,
                  fun hb => skip_len _ _ hb⟩
      | some remote =>
          by_cases hbe : remote = h.dh_public
          · subst hbe
            simp only [hlk, hdr, bne_self_eq_false]
            rw [if_neg Bool.false_ne_true]
            split
            next e1 s1 heq => exact absurd heq (by simp)
            next a1 s1 heq =>
              have h2 : s = s1 := congrArg Prod.snd heq
              subst h2
              split
              next e2 s2 heq2 =>
                have h3 := congrArg Prod.snd heq2
                dsimp only at h3
                subst h3
                exact ⟨skip_vbk _ _, skip_vk _ _, skip_sck _ _,
                  fun hc => by rw [skip_cks]; exact hc,
                  fun hb => skip_len _ _ hb⟩
              next a2 s2 heq2 =>
                have h3 := congrArg Prod.snd heq2
                dsimp only at h3
                subst h3
                split
                next heq3 =>
                  exact ⟨skip_vbk _ _, skip_vk _ _, skip_sck _ _,
                    fun hc => by rw [skip_cks]; exact hc,
                    fun hb => skip_len _ _ hb⟩
                next ck heq3 =>
                  exact ⟨skip_vbk _ _, skip_vk _ _, skip_sck _ _,
                    fun hc => by rw [skip_cks]; exact hc,
                    fun hb => skip_len _ _ hb⟩
          · have hbt : (remote != h.dh_public) = true := by simp [hbe]
            simp only [hlk, hdr, hbt, if_true]
            split
            next e1 s1 heq =>
              split at heq
              next e2 s2 heq2 =>
                have h3 : s2 = s1 := congrArg Prod.snd heq
                subst h3
                have h4 := congrArg Prod.snd heq2
                dsimp only at h4
                subst h4
                exact ⟨skip_vbk _ _, skip_vk _ _, skip_sck _ _,
                  fun hc => by rw [skip_cks]; exact hc,
                  fun hb => skip_len _ _ hb⟩
              next a2 s2 heq2 =>
                have h3 := congrArg Prod.snd heq
                dsimp only at h3
                subst h3
                have h4 := congrArg Prod.snd heq2
                dsimp only at h4
                subst h4
                exact ⟨(rrecv_vbk _ _ _).trans (skip_vbk _ _),
                  (rrecv_vk _ _ _).trans (skip_vk _ _),
                  (rrecv_sck _ _ _).trans (skip_sck _ _),
                  fun _ => rrecv_cks _ _ _,
                  fun hb => by rw [rrecv_skipped]; exact skip_len _ _ hb⟩
            next a1 s1 heq =>
              split at heq
              next e2 s2 heq2 => exact absurd heq (by simp)
              next a2 s2 heq2 =>
                have h3 := congrArg Prod.snd heq
                dsimp only at h3
                subst h3
                have h4 := congrArg Prod.snd heq2
                dsimp only at h4
                subst h4
                split
                next e3 s3 heq3 =>
                  have h5 := congrArg Prod.snd heq3
                  dsimp only at h5
                  subst h5
                  exact ⟨(skip_vbk _ _).trans
                      ((rrecv_vbk _ _ _).trans (skip_vbk _ _)),
                    (skip_vk _ _).trans ((rrecv_vk _ _ _).trans (skip_vk _ _)),
                    (skip_sck _ _).trans
                      ((rrecv_sck _ _ _).trans (skip_sck _ _)),
                    fun _ => by rw [skip_cks]; exact rrecv_cks _ _ _,
                    fun hb => skip_len _ _
                      (by rw [rrecv_skipped]; exact skip_len _ _ hb)⟩
                next a3 s3 heq3 =>
                  have h5 := congrArg Prod.snd heq3
                  dsimp only at h5
                  subst h5
                  split
                  next heq4 =>
                    exact ⟨(skip_vbk _ _).trans
                        ((rrecv_vbk _ _ _).trans (skip_vbk _ _)),
                      (skip_vk _ _).trans
                        ((rrecv_vk _ _ _).trans (skip_vk _ _)),
                      (skip_sck _ _).trans
                        ((rrecv_sck _ _ _).trans (skip_sck _ _)),
                      fun _ => by rw [skip_cks]; exact rrecv_cks _ _ _,
                      fun hb => skip_len _ _
                        (by rw [rrecv_skipped]; exact skip_len _ _ hb)⟩
                  next ck heq4 =>
                    exact ⟨(skip_vbk _ _).trans
                        ((rrecv_vbk _ _ _).trans (skip_vbk _ _)),
                      (skip_vk _ _).trans
                        ((rrecv_vk _ _ _).trans (skip_vk _ _)),
                      (skip_sck _ _).trans
                        ((rrecv_sck _ _ _).trans (skip_sck _ _)),
                      fun _ => by rw [skip_cks]; exact rrecv_cks _ _ _,
                      fun hb => skip_len _ _
                        (by rw [rrecv_skipped]; exact skip_len _ _ hb)⟩

/-- Every reachable session state satisfies the invariant. -/
theorem evolved_ok {ss : List Nat} {role : Bool} {s : RatchetSession}
    (h : Evolved ss role s) : SessionOK ss s := by
  induction h with
  | init secret =>
      exact ⟨rfl, Nat.zero_le _, rfl, Or.inl rfl, Or.inl rfl⟩
  | encrypt pt f nz _ ih =>
      obtain ⟨i1, i2, i3, i4, i5⟩ := ih
      obtain ⟨e1, e2, e3, e4, e5⟩ := encrypt_fields _ pt f nz
      exact ⟨(e5 i1).1, by rw [e1]; exact i2, e2.trans i3,
        i4.imp (fun hx => e3.trans hx) (fun hx => e3.trans hx),
        i5.imp (fun hx => e4.trans hx) (fun hx => e4.trans hx)⟩
  | decrypt hd nz ct f _ ih =>
      obtain ⟨i1, i2, i3, i4, i5⟩ := ih
      obtain ⟨d1, d2, d3, d4, d5⟩ := decrypt_fields _ hd nz ct f
      exact ⟨d4 i1, d5 i2, d1.trans i3,
        i4.imp (fun hx => d2.trans hx) (fun hx => d2.trans hx),
        i5.imp (fun hx => d3.trans hx) (fun hx => d3.trans hx)⟩
  | set_remote_dh pk _ ih =>
      obtain ⟨i1, i2, i3, i4, i5⟩ := ih
      unfold RatchetSession.set_remote_dh
      split
      · exact ⟨i1, i2, i3, i4, i5⟩
      · exact ⟨i1, i2, i3, i4, i5⟩
  | derive_voice_key _ ih =>
      obtain ⟨i1, i2, i3, i4, i5⟩ := ih
      unfold RatchetSession.derive_voice_key
      split
      · exact ⟨i1, i2, i3, i4, i5⟩
      · exact ⟨i1, i2, i3, Or.inr (by rw [i3]), i5⟩
  | derive_screen_key _ ih =>
      obtain ⟨i1, i2, i3, i4, i5⟩ := ih
      unfold RatchetSession.derive_screen_key
      split
      · exact ⟨i1, i2, i3, i4, i5⟩
      · exact ⟨i1, i2, i3, i4, Or.inr (by rw [i3])⟩
  | clear_voice_key _ ih =>
      obtain ⟨i1, i2, i3, _, i5⟩ := ih
      exact ⟨i1, i2, i3, Or.inl rfl, i5⟩
  | clear_screen_key _ ih =>
      obtain ⟨i1, i2, i3, i4, _⟩ := ih
      exact ⟨i1, i2, i3, i4, Or.inl rfl⟩

/-- On any session satisfying the invariant, `derive_voice_key` returns
the voice key derived from the shared secret's media base key. -/
theorem derive_voice_val {ss : List Nat} {s : RatchetSession}
    (hok : SessionOK ss s) :
    s.derive_voice_key.1 = KM.hkdfKM (voiceBase ss) KDF_VOICE_INFO := by
  unfold RatchetSession.derive_voice_key
  cases hvk : s.voice_key with
  | none =>
      simp only [hvk]
      rw [hok.2.2.1]
  | some vk =>
      simp only [hvk]
      rcases hok.2.2.2.1 with hx | hx
      · rw [hvk] at hx; cases hx
      · rw [hvk] at hx; exact Option.some.inj hx

/-- On any session satisfying the invariant, `derive_screen_key` returns
the screen key derived from the shared secret's media base key. -/
theorem derive_screen_val {ss : List Nat} {s : RatchetSession}
    (hok : SessionOK ss s) :
    s.derive_screen_key.1 = KM.hkdfKM (voiceBase ss) KDF_SCREEN_INFO := by
  unfold RatchetSession.derive_screen_key
  cases hsk : s.screen_key with
  | none =>
      simp only [hsk]
      rw [hok.2.2.1]
  | some sk =>
      simp only [hsk]
      rcases hok.2.2.2.2 with hx | hx
      · rw [hsk] at hx; cases hx
      · rw [hsk] at hx; exact Option.some.inj hx

/-- C5: for every shared secret, both roles derive the same voice key and
the same screen key, and this is unaffected by any sequence of
encrypt/decrypt (or other) operations performed on either session before
the derivation; and the voice key always differs from the screen key. -/
theorem c5_media_key_agreement (ss : List Nat) (sa sb : RatchetSession)
    (ha : Evolved ss true sa) (hb : Evolved ss false sb) :
    sa.derive_voice_key.1 = sb.derive_voice_key.1 ∧
    sa.derive_screen_key.1 = sb.derive_screen_key.1 ∧
    sa.derive_voice_key.1 ≠ sa.derive_screen_key.1 := by
  have oka := evolved_ok ha
  have okb := evolved_ok hb
  refine ⟨(derive_voice_val oka).trans (derive_voice_val okb).symm,
    (derive_screen_val oka).trans (derive_screen_val okb).symm, ?_⟩
  rw [derive_voice_val oka, derive_screen_val oka]
  intro hcontra
  have : KDF_VOICE_INFO = KDF_SCREEN_INFO := by
    injection hcontra
  exact absurd this (by decide)

/-- Witness for C5 at concrete sessions: both freshly initialised sides
of shared secret `[42]`, one of them advanced by an encrypt. -/
theorem c5_witness :
    ((RatchetSession.init [42] true 0).encrypt [1] 4
        (List.replicate 12 0)).2.derive_voice_key.1 =
      (RatchetSession.init [42] false 1).derive_voice_key.1 ∧
    ((RatchetSession.init [42] true 0).encrypt [1] 4
        (List.replicate 12 0)).2.derive_screen_key.1 =
      (RatchetSession.init [42] false 1).derive_screen_key.1 ∧
    ((RatchetSession.init [42] true 0).encrypt [1] 4
        (List.replicate 12 0)).2.derive_voice_key.1 ≠
      ((RatchetSession.init [42] true 0).encrypt [1] 4
        (List.replicate 12 0)).2.derive_screen_key.1 :=
  c5_media_key_agreement [42] _ _
    (Evolved.encrypt [1] 4 (List.replicate 12 0) (Evolved.init 0))
    (Evolved.init 1)

/-- C6: after any sequence of operations on a session produced by `init`
(arguments arbitrary, calls succeeding or failing), the skipped-key map
holds at most MAX_SKIP = 100 entries. -/
theorem c6_skipped_map_bounded (ss : List Nat) (role : Bool)
    (s : RatchetSession) (h : Evolved ss role s) :
    s.skipped_keys.length ≤ MAX_SKIP :=
  (evolved_ok h).2.1

/-- Witness for C6 at a concrete reachable session: a decrypt that skips
50 message keys stays within the bound. -/
theorem c6_witness :
    ((RatchetSession.init [42] false 1).set_remote_dh 0).decrypt
        ⟨0, 0, 50⟩ (List.replicate 12 0) (Ct.raw []) 5
      |>.2.skipped_keys.length ≤ MAX_SKIP :=
  c6_skipped_map_bounded [42] false _
    (Evolved.decrypt ⟨0, 0, 50⟩ (List.replicate 12 0) (Ct.raw []) 5
      (Evolved.set_remote_dh 0 (Evolved.init 1)))

/-- C9: on every reachable session the sending chain key is present, and
`encrypt` always succeeds — the `No sending chain key` and
`No remote DH key for send ratchet` error branches are unreachable
(`encrypt` only attempts the initial send ratchet when a remote DH public
is recorded, and then `ratchet_send` cannot fail). -/
theorem c9_encrypt_total (ss : List Nat) (role : Bool) (s : RatchetSession)
    (h : Evolved ss role s) (pt : List Nat) (fresh : Nat) (nz : List Nat) :
    s.chain_key_send.isSome = true ∧
    ∃ v, (s.encrypt pt fresh nz).1 = Except.ok v := by
  have hok := (evolved_ok h).1
  exact ⟨hok, ((encrypt_fields s pt fresh nz).2.2.2.2 hok).2⟩

/-- Witness for C9: a session that has decrypted (hence DH-ratcheted)
still encrypts successfully. -/
theorem c9_witness :
    (((RatchetSession.init [42] true 0).set_remote_dh 1).chain_key_send.isSome
      = true) ∧
    ∃ v, (((RatchetSession.init [42] true 0).set_remote_dh 1).encrypt [7] 4
      (List.replicate 12 2)).1 = Except.ok v :=
  c9_encrypt_total [42] true _ (Evolved.set_remote_dh 1 (Evolved.init 0))
    [7] 4 (List.replicate 12 2)

/-! ## The relay's per-frame routing (`src/relay/mod.rs`)

One iteration of `handle_connection`'s receive loop, as a pure function
on the routing state.  A peer's `UnboundedSender` channel is modelled as
an outbound queue (a list of frames); "sending" a frame appends it.  The
relay forwards the original frame bytes; since `bincode` round-trips the
`Message`, the queues hold `Message` values.  The `println!` calls are
modelled as an emitted list of log strings (the source interpolates
session-id prefixes into them; the strings here are the constant parts —
what matters for the claims is which frames produce a log at all). -/

/-- The wire `Message` enum of `src/protocol/mod.rs`, field for field
(`from`/`target`/`session_id`/`group_id` strings, byte-vector payloads). -/
inductive Message where
  | Connect : String → Message
  | Discover : String → Message
  | KeyExchange : String → List Nat → List Nat → Message
  | Encrypted : String → String → List Nat → List Nat → List Nat → Message
  | Ack : Message
  | Error : String → Message
  | GroupJoin : String → String → Message
  | GroupLeave : String → String → Message
  | GroupEncrypted : String → String → List Nat → List Nat → List Nat → Message
  | AudioFrame : String → List Nat → List Nat → Message
  | Typing : String → String → Bool → Message
  | ReadReceipt : String → String → String → Message
deriving DecidableEq, Repr

/-- Association-list lookup keyed by strings (the relay's `HashMap`s). -/
def alLookup {α : Type} (k : String) : List (String × α) → Option α
  | [] => none
  | (k', v) :: rest => if k' = k then some v else alLookup k rest

/-- Model of `HashMap::insert`: replace the binding of `k` if present, else add. -/
def alInsert {α : Type} (k : String) (v : α) : List (String × α) →
    List (String × α)
  | [] => [(k, v)]
  | (k', v') :: rest =>
      if k' = k then (k, v) :: rest else (k', v') :: alInsert k v rest

/-- Model of `HashMap::remove`. -/
def alRemove {α : Type} (k : String) : List (String × α) → List (String × α)
  | [] => []
  | (k', v') :: rest =>
      if k' = k then rest else (k', v') :: alRemove k rest

/-- Send a frame on the channel of session `k`, when registered
(`if let Some(tx) = peers.get(k) ... tx.send(data)`). -/
def enqueue (k : String) (m : Message) : List (String × List Message) →
    List (String × List Message)
  | [] => []
  | (k', q) :: rest =>
      if k' = k then (k', q ++ [m]) :: rest else (k', q) :: enqueue k m rest

/-- Send a frame to every registered peer other than the sender
(`for (sid, tx) in peers ... if Some(sid) != session_id`). -/
def broadcast (selfSid : Option String) (m : Message)
    (peers : List (String × List Message)) : List (String × List Message) :=
  peers.map (fun p => if some p.1 = selfSid then p else (p.1, p.2 ++ [m]))

/-- The routing state after one inbound frame: peers map, rooms map, the
connection's recorded session id, and the log lines printed. -/
structure RelayStep where
  peers : List (String × List Message)
  rooms : List (String × List String)
  selfSid : Option String
  logs : List String
deriving DecidableEq, Repr

/-- One iteration of the relay's receive loop (`handle_connection`),
dispatching a deserialized inbound frame. -/
def handleFrame (peers : List (String × List Message))
    (rooms : List (String × List String)) (selfSid : Option String)
    (msg : Message) : RelayStep :=
  match msg with
  | Message.Connect sid =>
      let isResumption := (alLookup sid peers).isSome
      let logs := if isResumption then ["session resumption"]
        else ["new session"]
      let peers := alInsert sid ([] : List Message) peers
      let peers := enqueue sid Message.Ack peers
      ⟨peers, rooms, some sid, logs⟩
  | Message.Discover target => ⟨enqueue target msg peers, rooms, selfSid, []⟩
  | Message.KeyExchange _ _ _ =>
      ⟨broadcast selfSid msg peers, rooms, selfSid, []⟩
  | Message.AudioFrame _ _ _ =>
      ⟨broadcast selfSid msg peers, rooms, selfSid, []⟩
  | Message.Encrypted _ target _ _ _ =>
      if target ≠ "" then ⟨enqueue target msg peers, rooms, selfSid, []⟩
      else ⟨broadcast selfSid msg peers, rooms, selfSid, []⟩
  | Message.GroupJoin sid gid =>
      let room := (alLookup gid rooms).getD []
      let room := if sid ∈ room then room else room ++ [sid]
      ⟨peers, alInsert gid room rooms, selfSid, ["session joined room"]⟩
  | Message.GroupLeave sid gid =>
      match alLookup gid rooms with
      | none => ⟨peers, rooms, selfSid, []⟩
      | some room =>
          let room := room.filter (fun x => x ≠ sid)
          if room.isEmpty then
            ⟨peers, alRemove gid rooms, selfSid, ["session left room"]⟩
          else ⟨peers, alInsert gid room rooms, selfSid,
            ["session left room"]⟩
  | Message.GroupEncrypted fromSid gid _ _ _ =>
      match alLookup gid rooms with
      | none => ⟨peers, rooms, selfSid, []⟩
      | some members =>
          ⟨members.foldl
            (fun ps m => if m ≠ fromSid then enqueue m msg ps else ps)
            peers, rooms, selfSid, []⟩
  | _ => ⟨peers, rooms, selfSid, []⟩

/-- The concrete routing state of the counterexample: two registered
peers with empty outbound queues. -/
def c4Peers : List (String × List Message) := [("p1", []), ("p2", [])]

/-- C4 (counterexample to the claim as stated): an inbound `Typing` frame
targeting the registered peer `p2` is not forwarded — `Typing` and
`ReadReceipt` fall into `handle_connection`'s catch-all `_ => ()` arm, so
no queue receives the frame (the claim asserts it reaches the targeted
peer's outbound queue).  The "never logged" half does hold. -/
theorem c4_counterexample :
    ¬ (Message.Typing "p1" "p2" true ∈
        ((alLookup "p2" (handleFrame c4Peers [] (some "p1")
          (Message.Typing "p1" "p2" true)).peers).getD [])) ∧
    (handleFrame c4Peers [] (some "p1")
      (Message.Typing "p1" "p2" true)).peers = c4Peers ∧
    (handleFrame c4Peers [] (some "p1")
      (Message.Typing "p1" "p2" true)).logs = [] :=
  ⟨by decide, rfl, rfl⟩

/-- C4 (amended): the relay ignores inbound `Typing` and `ReadReceipt`
frames entirely — they are never forwarded (no outbound queue changes, no
routing-state change) and never logged. -/
theorem c4_typing_readreceipt_ignored (peers : List (String × List Message))
    (rooms : List (String × List String)) (selfSid : Option String)
    (f t mid : String) (b : Bool) :
    handleFrame peers rooms selfSid (Message.Typing f t b) =
      ⟨peers, rooms, selfSid, []⟩ ∧
    handleFrame peers rooms selfSid (Message.ReadReceipt f t mid) =
      ⟨peers, rooms, selfSid, []⟩ :=
  ⟨rfl, rfl⟩

/-! ## The client's inbound `KeyExchange` handler (`src/client/mod.rs`)

`establish_connection`'s receiver task, `Message::KeyExchange` arm, as a
pure function on the peer map.  `Identity::key_exchange` (X25519 of the
identity keys followed by BLAKE3, `src/crypto/mod.rs`) fails exactly when
the peer public key is not 32 bytes; the derived shared secret itself is
symbolic.  Everything the handler emits besides the map update — status
strings, the peer-display update, the join notice, the `KeyExchange`
reply and the delayed nickname message — is modelled as an effect list. -/

/-- Symbolic `blake3(x25519(self_sk, peer_pk))` shared secret. -/
def kxSharedSecret (selfSk : Nat) (peerPk : List Nat) : List Nat :=
  selfSk :: peerPk

/-- Model of `Identity::key_exchange`: `<[u8; 32]>::try_from` rejects any public
key that is not exactly 32 bytes; otherwise derive the shared secret. -/
def key_exchange (selfSk : Nat) (peerPk : List Nat) :
    Except String (List Nat) :=
  if peerPk.length = 32 then Except.ok (kxSharedSecret selfSk peerPk)
  else Except.error "invalid public key length"

/-- The client's full per-peer record (`PeerInfo`). -/
structure PeerInfo where
  ratchet : RatchetSession
  nickname : Option String
  public_key : List Nat
deriving DecidableEq, Repr

/-- Observable actions of the `KeyExchange` handler other than the peer
map update. -/
inductive ClientEffect where
  | statusMsg : String → ClientEffect
  | peerUpdate : ClientEffect
  | joinNotice : String → ClientEffect
  | keReply : String → List Nat → ClientEffect
  | nicknameSend : String → ClientEffect
deriving DecidableEq, Repr

/-- The `Message::KeyExchange { from, public_key }` arm of the client's
receiver task.  `fresh` is the ephemeral secret for a newly constructed
ratchet.  On a duplicate (`from` already in the map) the source hits the
`else` branch and `continue`s, emitting nothing and touching nothing. -/
def handleKeyExchange (selfSid : String) (selfSk : Nat) (selfPk : List Nat)
    (myNickname : Option String) (peers : List (String × PeerInfo))
    (fromSid : String) (public_key : List Nat) (fresh : Nat) :
    List (String × PeerInfo) × List ClientEffect :=
  if fromSid = selfSid then (peers, [])
  else
    match key_exchange selfSk public_key with
    | Except.error e =>
        (peers, [ClientEffect.statusMsg ("Key exchange failed: " ++ e)])
    | Except.ok secret =>
        let isNewPeer := (alLookup fromSid peers).isNone
        let isAlice := decide (selfSid < fromSid)
        if isNewPeer then
          let record : PeerInfo :=
            ⟨RatchetSession.init secret isAlice fresh, none, public_key⟩
          (alInsert fromSid record peers,
            [ClientEffect.statusMsg "Double Ratchet session established",
             ClientEffect.peerUpdate,
             ClientEffect.joinNotice fromSid,
             ClientEffect.keReply selfSid selfPk] ++
            (match myNickname with
             | some _ => [ClientEffect.nicknameSend fromSid]
             | none => []))
        else (peers, [])

/-- C7: a `KeyExchange` frame from a session-id already present in the
peer map leaves the whole peer map — in particular that peer's ratchet,
nickname and stored public key — unchanged, and no `KeyExchange` reply is
emitted. -/
theorem c7_duplicate_key_exchange_noop (selfSid : String) (selfSk : Nat)
    (selfPk : List Nat) (myNickname : Option String)
    (peers : List (String × PeerInfo)) (fromSid : String)
    (public_key : List Nat) (fresh : Nat)
    (hdup : (alLookup fromSid peers).isSome = true) :
    (handleKeyExchange selfSid selfSk selfPk myNickname peers fromSid
      public_key fresh).1 = peers ∧
    ∀ eff ∈ (handleKeyExchange selfSid selfSk selfPk myNickname peers
      fromSid public_key fresh).2, ∀ a b, eff ≠ ClientEffect.keReply a b := by
  unfold handleKeyExchange key_exchange
  by_cases h1 : fromSid = selfSid
  · simp [h1]
  · by_cases h2 : public_key.length = 32
    · have h3 : (alLookup fromSid peers).isNone = false := by
        simp [Option.isNone_eq_false_iff, Option.isSome_iff_exists] at hdup ⊢
        exact hdup
      simp [h1, h2, h3]
    · simp [h1, h2]

/-- Witness for C7: a concrete duplicate key-exchange against a one-entry
peer map is a no-op with no reply. -/
theorem c7_witness :
    (handleKeyExchange "self0" 9 (List.replicate 32 7) none
      [("peerA", ⟨RatchetSession.init [1] true 0, none, [2]⟩)] "peerA"
      (List.replicate 32 3) 5).1 =
      [("peerA", ⟨RatchetSession.init [1] true 0, none, [2]⟩)] ∧
    ∀ eff ∈ (handleKeyExchange "self0" 9 (List.replicate 32 7) none
      [("peerA", ⟨RatchetSession.init [1] true 0, none, [2]⟩)] "peerA"
      (List.replicate 32 3) 5).2, ∀ a b, eff ≠ ClientEffect.keReply a b :=
  c7_duplicate_key_exchange_noop "self0" 9 (List.replicate 32 7) none
    [("peerA", ⟨RatchetSession.init [1] true 0, none, [2]⟩)] "peerA"
    (List.replicate 32 3) 5 (by decide)

/-! ## SHA-256 (the `sha2` crate as used by `safety_number.rs`)

A direct executable implementation over `Nat`, with 32-bit words kept
below `2^32` by explicit `% 4294967296`.  The safety-number claims are
about concrete digest bytes, so the hash is implemented rather than
modelled symbolically. -/

/-- Truncate to a 32-bit word. -/
def w32 (n : Nat) : Nat := n % 4294967296

/-- 32-bit rotate right (the argument is a 32-bit word). -/
def rotr (n x : Nat) : Nat := w32 ((x >>> n) ||| (x <<< (32 - n)))

/-- 32-bit complement. -/
def compl32 (x : Nat) : Nat := x ^^^ 4294967295

/-- SHA-256 `Ch`. -/
def ch32 (e f g : Nat) : Nat := (e &&& f) ^^^ (compl32 e &&& g)

/-- SHA-256 `Maj`. -/
def maj32 (a b c : Nat) : Nat := (a &&& b) ^^^ (a &&& c) ^^^ (b &&& c)

/-- SHA-256 `Σ0`. -/
def bsig0 (x : Nat) : Nat := rotr 2 x ^^^ rotr 13 x ^^^ rotr 22 x

/-- SHA-256 `Σ1`. -/
def bsig1 (x : Nat) : Nat := rotr 6 x ^^^ rotr 11 x ^^^ rotr 25 x

/-- SHA-256 `σ0`. -/
def ssig0 (x : Nat) : Nat := rotr 7 x ^^^ rotr 18 x ^^^ (x >>> 3)

/-- SHA-256 `σ1`. -/
def ssig1 (x : Nat) : Nat := rotr 17 x ^^^ rotr 19 x ^^^ (x >>> 10)

/-- The 64 SHA-256 round constants. -/
def sha256K : List Nat :=
  [1116352408, 1899447441, 3049323471, 3921009573, 961987163,
   1508970993, 2453635748, 2870763221, 3624381080, 310598401,
   607225278, 1426881987, 1925078388, 2162078206, 2614888103,
   3248222580, 3835390401, 4022224774, 264347078, 604807628,
   770255983, 1249150122, 1555081692, 1996064986, 2554220882,
   2821834349, 2952996808, 3210313671, 3336571891, 3584528711,
   113926993, 338241895, 666307205, 773529912, 1294757372,
   1396182291, 1695183700, 1986661051, 2177026350, 2456956037,
   2730485921, 2820302411, 3259730800, 3345764771, 3516065817,
   3600352804, 4094571909, 275423344, 430227734, 506948616,
   659060556, 883997877, 958139571, 1322822218, 1537002063,
   1747873779, 1955562222, 2024104815, 2227730452, 2361852424,
   2428436474, 2756734187, 3204031479, 3329325298]

/-- The SHA-256 initial hash value. -/
def sha256H0 : List Nat :=
  [1779033703, 3144134277, 1013904242,
   2773480762, 1359893119, 2600822924,
   528734635, 1541459225]

/-- Big-endian 8-byte encoding of the bit length. -/
def lenBytesBE (n : Nat) : List Nat :=
  [n >>> 56 % 256, n >>> 48 % 256, n >>> 40 % 256, n >>> 32 % 256,
   n >>> 24 % 256, n >>> 16 % 256, n >>> 8 % 256, n % 256]

/-- Merkle-Damgard padding: `0x80`, zeros to 56 mod 64, 8-byte length. -/
def sha256Pad (msg : List Nat) : List Nat :=
  msg ++ [128] ++ List.replicate ((64 - (msg.length + 9) % 64) % 64) 0 ++
    lenBytesBE (8 * msg.length)

/-- Big-endian 32-bit words from bytes (the padded length is a multiple
of four). -/
def bytesToWords : List Nat → List Nat
  | b0 :: b1 :: b2 :: b3 :: rest =>
      (b0 * 16777216 + b1 * 65536 + b2 * 256 + b3) :: bytesToWords rest
  | _ => []

/-- Split the padded byte string into 64-byte blocks (fuel recursion on
the length, which always suffices). -/
def toBlocksFuel : Nat → List Nat → List (List Nat)
  | 0, _ => []
  | fuel + 1, l =>
      if l.isEmpty then [] else l.take 64 :: toBlocksFuel fuel (l.drop 64)

/-- The 64-byte blocks of a byte string. -/
def toBlocks (l : List Nat) : List (List Nat) := toBlocksFuel l.length l

/-- Extend a 16-word block by `n` schedule words. -/
def extendSchedule (ws : List Nat) : Nat → List Nat
  | 0 => ws
  | n + 1 =>
      let cur := extendSchedule ws n
      let len := cur.length
      cur ++ [w32 (ssig1 (cur.getD (len - 2) 0) + cur.getD (len - 7) 0 +
        ssig0 (cur.getD (len - 15) 0) + cur.getD (len - 16) 0)]

/-- One SHA-256 round on the `[a, b, c, d, e, f, g, h]` state. -/
def sha256Round (st : List Nat) (kw : Nat × Nat) : List Nat :=
  let t1 := w32 (st.getD 7 0 + bsig1 (st.getD 4 0) +
    ch32 (st.getD 4 0) (st.getD 5 0) (st.getD 6 0) + kw.1 + kw.2)
  let t2 := w32 (bsig0 (st.getD 0 0) +
    maj32 (st.getD 0 0) (st.getD 1 0) (st.getD 2 0))
  [w32 (t1 + t2), st.getD 0 0, st.getD 1 0, st.getD 2 0,
   w32 (st.getD 3 0 + t1), st.getD 4 0, st.getD 5 0, st.getD 6 0]

/-- Compress one 64-byte block into the chaining value. -/
def compressBlock (h : List Nat) (block : List Nat) : List Nat :=
  let ws := extendSchedule (bytesToWords block) 48
  let st := (sha256K.zip ws).foldl sha256Round h
  [w32 (h.getD 0 0 + st.getD 0 0), w32 (h.getD 1 0 + st.getD 1 0),
   w32 (h.getD 2 0 + st.getD 2 0), w32 (h.getD 3 0 + st.getD 3 0),
   w32 (h.getD 4 0 + st.getD 4 0), w32 (h.getD 5 0 + st.getD 5 0),
   w32 (h.getD 6 0 + st.getD 6 0), w32 (h.getD 7 0 + st.getD 7 0)]

/-- Big-endian bytes of a 32-bit word. -/
def wordBytesBE (w : Nat) : List Nat :=
  [w / 16777216 % 256, w / 65536 % 256, w / 256 % 256, w % 256]

/-- SHA-256 of a byte string, as 32 bytes. -/
def sha256 (msg : List Nat) : List Nat :=
  ((toBlocks (sha256Pad msg)).foldl compressBlock sha256H0).flatMap
    wordBytesBE

/-! ## Safety number (`src/crypto/safety_number.rs`) -/

/-- Rust slice `<=`: lexicographic byte comparison with length
tie-break. -/
def bytesLe : List Nat → List Nat → Bool
  | [], _ => true
  | _ :: _, [] => false
  | a :: as_, b :: bs =>
      if a < b then true else if b < a then false else bytesLe as_ bs

/-- Model of `(x as u32).to_le_bytes()`. -/
def u32le (n : Nat) : List Nat :=
  [n % 256, n / 256 % 256, n / 65536 % 256, n / 16777216 % 256]

/-- The emoji alphabet of `safety_number.rs`, 64 entries in source order
(the source list repeats two entries; copied as-is). -/
def EMOJI_ALPHABET : List String :=
  ["🔑", "🌊", "🎸", "🏔️", "🦊", "🌙", "⚡", "🎯",
   "🦋", "🌺", "🎪", "🚀", "🐉", "💎", "🌈", "🔥",
   "🎭", "🦁", "🌻", "⭐", "🎵", "🐺", "🌴", "🎲",
   "🦅", "🌸", "🎩", "💫", "🐬", "🌿", "🎪", "🔮",
   "🦜", "🌾", "🎻", "🌟", "🐙", "🍀", "🎨", "💥",
   "🦈", "🌵", "🎹", "✨", "🐝", "🌹", "🎬", "🌊",
   "🦉", "🍁", "🎺", "💠", "🐋", "🌼", "🎳", "🔷",
   "🦚", "🌱", "🎷", "💜", "🐧", "🌳", "🎶", "🔶"]

/-- The sorted key pair hashed by `compute_safety_number`. -/
def sortPair (my_pubkey peer_pubkey : List Nat) : List Nat × List Nat :=
  if bytesLe my_pubkey peer_pubkey then (my_pubkey, peer_pubkey)
  else (peer_pubkey, my_pubkey)

/-- The exact byte string fed to SHA-256:
`"WSP-SAFETY-NUMBER-v1" || len(first) || first || len(second) || second`
(streaming `hasher.update` calls hash the concatenation). -/
def safetyInput (my_pubkey peer_pubkey : List Nat) : List Nat :=
  let fs := sortPair my_pubkey peer_pubkey
  strBytes "WSP-SAFETY-NUMBER-v1" ++ u32le fs.1.length ++ fs.1 ++
    u32le fs.2.length ++ fs.2

/-- A computed safety number (`SafetyNumber`): the 32-byte digest. -/
structure SafetyNumber where
  hash : List Nat
deriving DecidableEq, Repr

/-- Model of `compute_safety_number`. -/
def compute_safety_number (my_pubkey peer_pubkey : List Nat) :
    SafetyNumber :=
  ⟨sha256 (safetyInput my_pubkey peer_pubkey)⟩

/-- Decimal digit characters of `n`, most significant first (fuel
recursion; `n + 1` fuel always suffices). -/
def decCharsAux : Nat → Nat → List Char
  | 0, _ => []
  | fuel + 1, n =>
      if n < 10 then [Nat.digitChar n]
      else decCharsAux fuel (n / 10) ++ [Nat.digitChar (n % 10)]

/-- Decimal digit characters of `n`. -/
def decChars (n : Nat) : List Char := decCharsAux (n + 1) n

/-- The source's `format!` with the zero-padded width-5 spec: left-pad
the decimal rendering with zeros to width 5. -/
def fmt05 (n : Nat) : String :=
  ⟨List.replicate (5 - (decChars n).length) '0' ++ decChars n⟩

/-- The five 5-digit groups of `SafetyNumber::numeric`: for each of the
five offsets, a `u32` from four little-endian hash bytes, mod 100000. -/
def numericGroups (sn : SafetyNumber) : List String :=
  (List.range 5).map fun i =>
    let off := i * 4
    let val := sn.hash.getD off 0 + sn.hash.getD (off + 1) 0 * 256 +
      sn.hash.getD (off + 2) 0 * 65536 + sn.hash.getD (off + 3) 0 * 16777216
    fmt05 (val % 100000)

/-- Model of `SafetyNumber::numeric`: the groups joined by spaces. -/
def SafetyNumber.numeric (sn : SafetyNumber) : String :=
  String.intercalate " " (numericGroups sn)

/-- The eight emojis of `SafetyNumber::emoji`: hash bytes 20..27 index
the alphabet mod its length. -/
def emojiList (sn : SafetyNumber) : List String :=
  (List.range 8).map fun i =>
    EMOJI_ALPHABET.getD (sn.hash.getD (20 + i) 0 % 64) ""

/-- Model of `SafetyNumber::emoji`: the eight emojis concatenated. -/
def SafetyNumber.emoji (sn : SafetyNumber) : String :=
  String.join (emojiList sn)

/-! ### Safety-number symmetry -/

theorem bytesLe_total : ∀ a b : List Nat,
    bytesLe a b = true ∨ bytesLe b a = true
  | [], _ => Or.inl rfl
  | _ :: _, [] => Or.inr rfl
  | a :: as_, b :: bs => by
      rcases Nat.lt_trichotomy a b with h | h | h
      · left
        simp [bytesLe, h]
      · subst h
        rcases bytesLe_total as_ bs with ih | ih
        · left
          simp [bytesLe, ih]
        · right
          simp [bytesLe, ih]
      · right
        simp [bytesLe, h]

theorem bytesLe_antisymm : ∀ a b : List Nat,
    bytesLe a b = true → bytesLe b a = true → a = b
  | [], [], _, _ => rfl
  | [], _ :: _, _, h2 => by simp [bytesLe] at h2
  | _ :: _, [], h1, _ => by simp [bytesLe] at h1
  | a :: as_, b :: bs, h1, h2 => by
      rcases Nat.lt_trichotomy a b with h | h | h
      · simp [bytesLe, h, Nat.lt_asymm h] at h2
      · subst h
        simp only [bytesLe, Nat.lt_irrefl, if_false] at h1 h2
        rw [bytesLe_antisymm as_ bs h1 h2]
      · simp [bytesLe, h, Nat.lt_asymm h] at h1

theorem sortPair_symm (a b : List Nat) : sortPair a b = sortPair b a := by
  unfold sortPair
  by_cases h1 : bytesLe a b = true
  · by_cases h2 : bytesLe b a = true
    · rw [bytesLe_antisymm a b h1 h2]
    · simp [h1, h2]
  · have h2 : bytesLe b a = true := (bytesLe_total a b).resolve_left h1
    simp [h1, h2]

theorem compute_safety_number_symm (a b : List Nat) :
    compute_safety_number a b = compute_safety_number b a := by
  unfold compute_safety_number safetyInput
  rw [sortPair_symm]

/-! ### Rendering format -/

theorem decCharsAux_len (fuel : Nat) : ∀ n k : Nat, 0 < k → n < 10 ^ k →
    (decCharsAux fuel n).length ≤ k := by
  induction fuel with
  | zero => intro n k hk _; simp [decCharsAux]
  | succ fuel ih =>
      intro n k hk hn
      by_cases h : n < 10
      · simp [decCharsAux, h]
        omega
      · have hk2 : 2 ≤ k := by
          by_contra hcon
          interval_cases k
          · exact absurd hn (by omega)
        simp only [decCharsAux, h, if_false, List.length_append,
          List.length_cons, List.length_nil]
        have hdiv : n / 10 < 10 ^ (k - 1) := by
          rw [Nat.div_lt_iff_lt_mul (by omega)]
          calc n < 10 ^ k := hn
            _ = 10 ^ (k - 1) * 10 := by
                rw [← Nat.pow_succ]
                congr 1
                omega
        have := ih (n / 10) (k - 1) (by omega) hdiv
        omega

theorem digitChar_isDigit (d : Nat) (h : d < 10) :
    (Nat.digitChar d).isDigit = true := by
  interval_cases d <;> decide

theorem decCharsAux_digits (fuel : Nat) : ∀ n : Nat,
    ∀ c ∈ decCharsAux fuel n, c.isDigit = true := by
  induction fuel with
  | zero => intro n c hc; simp [decCharsAux] at hc
  | succ fuel ih =>
      intro n c hc
      by_cases h : n < 10
      · simp [decCharsAux, h] at hc
        subst hc
        exact digitChar_isDigit n h
      · simp only [decCharsAux, h, if_false, List.mem_append,
          List.mem_singleton] at hc
        rcases hc with hc | hc
        · exact ih (n / 10) c hc
        · subst hc
          exact digitChar_isDigit (n % 10) (Nat.mod_lt n (by omega))

theorem fmt05_length (n : Nat) (h : n < 100000) : (fmt05 n).length = 5 := by
  have hlen : (decChars n).length ≤ 5 :=
    decCharsAux_len (n + 1) n 5 (by omega) (by omega)
  show (List.replicate (5 - (decChars n).length) '0' ++ decChars n).length = 5
  simp [List.length_append]
  omega

theorem fmt05_digits (n : Nat) : ∀ c ∈ (fmt05 n).data, c.isDigit = true := by
  intro c hc
  rcases List.mem_append.mp hc with hc | hc
  · rw [List.eq_of_mem_replicate hc]
    decide
  · exact decCharsAux_digits (n + 1) n c hc

theorem numericGroups_length (sn : SafetyNumber) :
    (numericGroups sn).length = 5 := by
  simp [numericGroups]

theorem numericGroups_format (sn : SafetyNumber) :
    ∀ g ∈ numericGroups sn, g.length = 5 ∧
      ∀ c ∈ g.data, c.isDigit = true := by
  intro g hg
  simp only [numericGroups, List.mem_map, List.mem_range] at hg
  obtain ⟨i, _, hgi⟩ := hg
  subst hgi
  exact ⟨fmt05_length _ (Nat.mod_lt _ (by omega)), fmt05_digits _⟩

theorem getD_mem : ∀ (l : List String) (i : Nat) (d : String),
    i < l.length → l.getD i d ∈ l
  | a :: _, 0, _, _ => List.mem_cons_self a _
  | a :: l, i + 1, d, h =>
      List.mem_cons_of_mem a (getD_mem l i d (by simpa using h))

theorem emojiList_length (sn : SafetyNumber) : (emojiList sn).length = 8 := by
  simp [emojiList]

theorem emojiList_mem (sn : SafetyNumber) :
    ∀ e ∈ emojiList sn, e ∈ EMOJI_ALPHABET := by
  intro e he
  simp only [emojiList, List.mem_map, List.mem_range] at he
  obtain ⟨i, _, hei⟩ := he
  subst hei
  exact getD_mem _ _ _ (Nat.lt_of_lt_of_le (Nat.mod_lt _ (by omega))
    (by decide))

/-! ### Distinctness: the hashed input is injective in the key pair, and
the digest itself cannot be (pigeonhole) -/

theorem u32le_inj {m n : Nat} (hm : m < 4294967296) (hn : n < 4294967296)
    (h : u32le m = u32le n) : m = n := by
  simp only [u32le, List.cons.injEq, and_true] at h
  omega

theorem u32le_length (n : Nat) : (u32le n).length = 4 := rfl

theorem frame_inj (f1 s1 f2 s2 : List Nat) (h1 : f1.length < 4294967296)
    (h2 : f2.length < 4294967296)
    (h : strBytes "WSP-SAFETY-NUMBER-v1" ++ u32le f1.length ++ f1 ++
        u32le s1.length ++ s1 =
      strBytes "WSP-SAFETY-NUMBER-v1" ++ u32le f2.length ++ f2 ++
        u32le s2.length ++ s2) : f1 = f2 ∧ s1 = s2 := by
  simp only [List.append_assoc] at h
  have ha := (List.append_inj h rfl).2
  have hb := List.append_inj ha (by simp [u32le_length])
  have hflen : f1.length = f2.length := u32le_inj h1 h2 hb.1
  have hc := List.append_inj hb.2 hflen
  refine ⟨hc.1, ?_⟩
  exact (List.append_inj hc.2 (by simp [u32le_length])).2

theorem sortPair_ne (a : List Nat) {b c : List Nat} (hne : b ≠ c) :
    sortPair a b ≠ sortPair a c := by
  intro hcontra
  unfold sortPair at hcontra
  split_ifs at hcontra <;>
    (obtain ⟨p, q⟩ := Prod.mk.injEq .. ▸ hcontra) <;>
    (apply hne;
     first | exact q | exact p | exact q.trans p | exact p.trans q)

theorem sortPair_length_bound {a b : List Nat}
    (ha : a.length < 4294967296) (hb : b.length < 4294967296) :
    (sortPair a b).1.length < 4294967296 ∧
    (sortPair a b).2.length < 4294967296 := by
  unfold sortPair
  split <;> exact ⟨by assumption, by assumption⟩

/-- Distinct second keys produce distinct SHA-256 inputs: equal safety
numbers for distinct keys would require a SHA-256 collision. -/
theorem safetyInput_inj (a : List Nat) {b c : List Nat}
    (ha : a.length < 4294967296) (hb : b.length < 4294967296)
    (hc : c.length < 4294967296) (hne : b ≠ c) :
    safetyInput a b ≠ safetyInput a c := by
  intro hcontra
  unfold safetyInput at hcontra
  obtain ⟨hab1, hab2⟩ := sortPair_length_bound ha hb
  simp only [List.append_assoc] at hcontra
  have := frame_inj (sortPair a b).1 (sortPair a b).2 (sortPair a c).1
    (sortPair a c).2 hab1 (sortPair_length_bound ha hc).1
    (by simpa [List.append_assoc] using hcontra)
  exact sortPair_ne a hne (Prod.ext this.1 this.2)

/-- Base-256 value of a byte string (used only to embed digests into a
finite type for the pigeonhole argument). -/
def digestVal (l : List Nat) : Nat :=
  l.foldl (fun acc b => acc * 256 + b % 256) 0

theorem digestVal_foldl_lt : ∀ (l : List Nat) (a : Nat),
    l.foldl (fun acc b => acc * 256 + b % 256) a < (a + 1) * 256 ^ l.length
  | [], a => by simp
  | b :: l, a => by
      have step := digestVal_foldl_lt l (a * 256 + b % 256)
      have hb : b % 256 < 256 := Nat.mod_lt _ (by omega)
      calc (b :: l).foldl (fun acc x => acc * 256 + x % 256) a
          = l.foldl (fun acc x => acc * 256 + x % 256)
            (a * 256 + b % 256) := rfl
        _ < (a * 256 + b % 256 + 1) * 256 ^ l.length := step
        _ ≤ ((a + 1) * 256) * 256 ^ l.length := by
            have : a * 256 + b % 256 + 1 ≤ (a + 1) * 256 := by omega
            exact Nat.mul_le_mul_right _ this
        _ = (a + 1) * 256 ^ (b :: l).length := by
            rw [List.length_cons, Nat.pow_succ]
            ring

theorem digestVal_lt (l : List Nat) : digestVal l < 256 ^ l.length := by
  have := digestVal_foldl_lt l 0
  simpa using this

theorem digestVal_foldl_inj : ∀ (l1 l2 : List Nat),
    l1.length = l2.length → (∀ x ∈ l1, x < 256) → (∀ x ∈ l2, x < 256) →
    ∀ a1 a2 : Nat,
      l1.foldl (fun acc b => acc * 256 + b % 256) a1 =
        l2.foldl (fun acc b => acc * 256 + b % 256) a2 →
      a1 = a2 ∧ l1 = l2
  | [], [], _, _, _ => by intro a1 a2 h; exact ⟨by simpa using h, rfl⟩
  | [], _ :: _, hlen, _, _ => by simp at hlen
  | _ :: _, [], hlen, _, _ => by simp at hlen
  | b1 :: l1, b2 :: l2, hlen, hb1, hb2 => by
      intro a1 a2 h
      have ih := digestVal_foldl_inj l1 l2 (by simpa using hlen)
        (fun x hx => hb1 x (List.mem_cons_of_mem _ hx))
        (fun x hx => hb2 x (List.mem_cons_of_mem _ hx))
        (a1 * 256 + b1 % 256) (a2 * 256 + b2 % 256) h
      have hbb1 : b1 < 256 := hb1 b1 (List.mem_cons_self _ _)
      have hbb2 : b2 < 256 := hb2 b2 (List.mem_cons_self _ _)
      have hacc := ih.1
      refine ⟨by omega, ?_⟩
      rw [ih.2]
      congr 1
      omega

theorem digestVal_inj {l1 l2 : List Nat} (hlen : l1.length = l2.length)
    (hb1 : ∀ x ∈ l1, x < 256) (hb2 : ∀ x ∈ l2, x < 256)
    (h : digestVal l1 = digestVal l2) : l1 = l2 :=
  (digestVal_foldl_inj l1 l2 hlen hb1 hb2 0 0 h).2

theorem compressBlock_length (h block : List Nat) :
    (compressBlock h block).length = 8 := rfl

theorem foldl_compress_length : ∀ (bl : List (List Nat)) (h : List Nat),
    h.length = 8 → (bl.foldl compressBlock h).length = 8
  | [], _, hh => hh
  | b :: bl, h, _ =>
      foldl_compress_length bl (compressBlock h b) (compressBlock_length h b)

theorem flatMap_wordBytes_length : ∀ l : List Nat,
    (l.flatMap wordBytesBE).length = 4 * l.length
  | [] => rfl
  | w :: l => by
      simp only [List.flatMap_cons, List.length_append,
        flatMap_wordBytes_length l, List.length_cons]
      simp [wordBytesBE]
      ring

/-- SHA-256 always yields 32 bytes. -/
theorem sha256_length (msg : List Nat) : (sha256 msg).length = 32 := by
  unfold sha256
  rw [flatMap_wordBytes_length,
    foldl_compress_length (toBlocks (sha256Pad msg)) sha256H0 (by decide)]

/-- Every SHA-256 output byte is below 256. -/
theorem sha256_bytes_lt (msg : List Nat) : ∀ x ∈ sha256 msg, x < 256 := by
  intro x hx
  unfold sha256 at hx
  obtain ⟨w, _, hw⟩ := List.mem_flatMap.mp hx
  simp only [wordBytesBE, List.mem_cons, List.not_mem_nil, or_false] at hw
  rcases hw with h | h | h | h <;> subst h <;> omega

set_option maxHeartbeats 1000000 in
/-- C8 (counterexample to the claim as stated): the distinctness clause
quantifies over all byte-string keys, but `compute_safety_number` maps
the infinitely many keys into 32-byte digests, so by pigeonhole two
distinct keys share a safety number with the first key fixed to
`[1; 32]`.  (No explicit pair is computable — that would be a SHA-256
collision — but the universal claim is provably false.) -/
theorem c8_counterexample : ∃ b c : List Nat, b ≠ c ∧
    compute_safety_number (List.replicate 32 1) b =
      compute_safety_number (List.replicate 32 1) c := by
  have hbound : ∀ n : Nat,
      digestVal (compute_safety_number (List.replicate 32 1) [n]).hash <
        256 ^ 32 := by
    intro n
    have := digestVal_lt (compute_safety_number (List.replicate 32 1) [n]).hash
    rwa [show (compute_safety_number (List.replicate 32 1) [n]).hash.length
      = 32 from sha256_length _] at this
  obtain ⟨m, n, hmn, heq⟩ := Finite.exists_ne_map_eq_of_infinite
    (fun n : Nat =>
      (⟨digestVal (compute_safety_number (List.replicate 32 1) [n]).hash,
        hbound n⟩ : Fin (256 ^ 32)))
  refine ⟨[m], [n], by simpa using hmn, ?_⟩
  have hv : digestVal (compute_safety_number (List.replicate 32 1) [m]).hash
      = digestVal (compute_safety_number (List.replicate 32 1) [n]).hash :=
    congrArg Fin.val heq
  have hhash := digestVal_inj
    ((sha256_length _).trans (sha256_length _).symm)
    (sha256_bytes_lt _) (sha256_bytes_lt _) hv
  exact congrArg SafetyNumber.mk hhash

set_option maxRecDepth 1000000 in
/-- C8 (amended): safety numbers are symmetric bit-for-bit for all key
byte strings (hence identical renderings); `numeric` always renders five
groups of five ASCII digits joined by spaces and `emoji` renders eight
alphabet emojis; and for distinct keys B and C (of any realistic length,
below `2^32` bytes) the hashed inputs differ — so equal safety numbers
for distinct keys would require a SHA-256 collision — and in particular
the concrete keys `[1; 32]`, `[2; 32]`, `[3; 32]` yield distinct safety
numbers. -/
theorem c8_safety_number_amended :
    (∀ a b : List Nat,
      compute_safety_number a b = compute_safety_number b a) ∧
    (∀ sn : SafetyNumber,
      sn.numeric = String.intercalate " " (numericGroups sn) ∧
      (numericGroups sn).length = 5 ∧
      (∀ g ∈ numericGroups sn, g.length = 5 ∧
        ∀ c ∈ g.data, c.isDigit = true) ∧
      sn.emoji = String.join (emojiList sn) ∧
      (emojiList sn).length = 8 ∧
      (∀ e ∈ emojiList sn, e ∈ EMOJI_ALPHABET)) ∧
    (∀ a b c : List Nat, a.length < 4294967296 → b.length < 4294967296 →
      c.length < 4294967296 → b ≠ c →
      safetyInput a b ≠ safetyInput a c) ∧
    compute_safety_number (List.replicate 32 1) (List.replicate 32 2) ≠
      compute_safety_number (List.replicate 32 1) (List.replicate 32 3) :=
  ⟨compute_safety_number_symm,
   fun sn => ⟨rfl, numericGroups_length sn, numericGroups_format sn, rfl,
     emojiList_length sn, emojiList_mem sn⟩,
   fun a _ _ ha hb hc => safetyInput_inj a ha hb hc,
   by decide⟩

set_option maxRecDepth 1000000 in
/-- Witness for C8 at concrete inputs, discharging the hypotheses: a
concrete symmetric pair, the format facts at the first numeric group and
first emoji of the spec's concrete safety number, and input distinctness
for concrete distinct keys. -/
theorem c8_witness :
    compute_safety_number [4] [5] = compute_safety_number [5] [4] ∧
    ("14685".length = 5 ∧ ∀ c ∈ "14685".data, c.isDigit = true) ∧
    "🎻" ∈ EMOJI_ALPHABET ∧
    safetyInput [1] [2] ≠ safetyInput [1] [3] :=
  ⟨c8_safety_number_amended.1 [4] [5],
   (c8_safety_number_amended.2.1 (compute_safety_number
     (List.replicate 32 1) (List.replicate 32 2))).2.2.1 "14685" (by decide),
   (c8_safety_number_amended.2.1 (compute_safety_number
     (List.replicate 32 1) (List.replicate 32 2))).2.2.2.2.2 "🎻" (by decide),
   c8_safety_number_amended.2.2.1 [1] [2] [3] (by decide) (by decide)
     (by decide) (by decide)⟩

end Whisper
